import Mathlib

/-!
# HT1621 LCD driver (src/src/ht1621.c, src/src/ht1621.h)

Shallow embedding of the bit-banged 3-wire driver and of its numeric
formatters.  Side effects are modelled as traces:

* the GPIO layer (`gpio_pin_set_dt`, `k_usleep`, `k_msleep`) becomes a list of
  `Event`s, in program order;
* `ht1621_display_digit` is modelled by the list of `ht1621_write_data` calls
  it makes (argument pairs, in program order);
* the three formatters are modelled by the list of `ht1621_display_digit`
  calls they make (argument triples, in program order).

Machine integers are natural numbers or integers; `uint8_t` results are
reduced modulo 256 where the C code could exceed the type.
-/

namespace HT1621

/-! ## Constants (ht1621.h lines 19-23, ht1621.c lines 10-18, 30, 69-71) -/

def HT1621_MAX_DIGITS : Nat := 6
def HT1621_BLANK : Nat := 0xFF
def HT1621_MINUS : Nat := 0xFE

def HT1621_CMD_SYS_EN : Nat := 0x01
def HT1621_CMD_LCD_ON : Nat := 0x03
def HT1621_CMD_RC_256K : Nat := 0x18
def HT1621_CMD_BIAS_DEFAULT : Nat := 0x29

def HT1621_DELAY_US : Nat := 2

def SEG_MINUS : Nat := 0b01000000
def SEG_BLANK : Nat := 0b00000000
def SEG_DP : Nat := 0b10000000

/-- Table `digit_segments` (ht1621.c lines 45-56), bit mapping 0bGFEDCBA. -/
def digit_segments : List Nat :=
  [0b00111111, 0b00000110, 0b01011011, 0b01001111, 0b01100110,
   0b01101101, 0b01111101, 0b00000111, 0b01111111, 0b01101111]

/-- Table `hex_segments` (ht1621.c lines 59-66). -/
def hex_segments : List Nat :=
  [0b01110111, 0b01111100, 0b00111001, 0b01011110, 0b01111001, 0b01110001]

/-! ## GPIO layer -/

/-- The three signal lines `cs_pin`, `wr_pin`, `data_pin`. -/
inductive Pin where
  | CS
  | WR
  | DATA
  deriving DecidableEq, Repr

/-- One observable action of the driver on the platform. -/
inductive Event where
  /-- Call `gpio_pin_set_dt(&pin, level)`. -/
  | set (pin : Pin) (level : Nat)
  /-- Call `k_usleep(us)`. -/
  | usleep (us : Nat)
  /-- Call `k_msleep(ms)`. -/
  | msleep (ms : Nat)
  deriving DecidableEq, Repr

/-- Body of the `for` loop of `ht1621_write_bits` (ht1621.c lines 76-89):
`fuel` bounds the remaining iterations, `i` is the loop counter. -/
def write_bits_loop (data bits : Nat) : Nat → Nat → List Event
  | 0, _ => []
  | fuel + 1, i =>
    if i < bits then
      [Event.set Pin.WR 0, Event.usleep HT1621_DELAY_US,
       (if data &&& (1 <<< (bits - 1 - i)) ≠ 0 then Event.set Pin.DATA 1
        else Event.set Pin.DATA 0),
       Event.usleep HT1621_DELAY_US, Event.set Pin.WR 1,
       Event.usleep HT1621_DELAY_US]
        ++ write_bits_loop data bits fuel (i + 1)
    else []

/-- Function `ht1621_write_bits(data, bits)` (ht1621.c lines 74-90).  The
counter runs from 0 up to `bits`, so `bits` iterations of fuel are exactly
enough. -/
def ht1621_write_bits (data bits : Nat) : List Event :=
  write_bits_loop data bits bits 0

/-- Function `ht1621_send_command(cmd)` (ht1621.c lines 93-103). -/
def ht1621_send_command (cmd : Nat) : List Event :=
  [Event.set Pin.CS 0, Event.usleep HT1621_DELAY_US]
    ++ ht1621_write_bits 0x80 4
    ++ ht1621_write_bits cmd 8
    ++ [Event.set Pin.CS 1, Event.usleep HT1621_DELAY_US]

/-- Function `ht1621_write_data(addr, data)` (ht1621.c lines 105-116). -/
def ht1621_write_data (addr data : Nat) : List Event :=
  [Event.set Pin.CS 0, Event.usleep HT1621_DELAY_US]
    ++ ht1621_write_bits 0xA0 3
    ++ ht1621_write_bits addr 6
    ++ ht1621_write_bits data 4
    ++ [Event.set Pin.CS 1, Event.usleep HT1621_DELAY_US]

/-! ## Observing a pin trace -/

/-- The DATA levels present at the successive rising edges of WR in a trace,
starting from the line levels `wr` and `data`. -/
def risingEdgeData : Nat → Nat → List Event → List Nat
  | _, _, [] => []
  | wr, data, Event.set Pin.WR l :: es =>
    if wr = 0 ∧ l ≠ 0 then data :: risingEdgeData l data es
    else risingEdgeData l data es
  | wr, _, Event.set Pin.DATA l :: es => risingEdgeData wr l es
  | wr, data, _ :: es => risingEdgeData wr data es

/-- The events of a trace that drive the CS line. -/
def csEvents (t : List Event) : List Event :=
  t.filter (fun e => match e with
    | Event.set Pin.CS _ => true
    | _ => false)

/-- A trace is one frame: CS is driven low first, driven high once at the end
(followed only by the trailing delay), and not driven in between. -/
def isFrame (t : List Event) : Prop :=
  ∃ body, t = [Event.set Pin.CS 0, Event.usleep HT1621_DELAY_US] ++ body
      ++ [Event.set Pin.CS 1, Event.usleep HT1621_DELAY_US] ∧ csEvents body = []

/-- Bit `k` of `v`, as a line level 0 or 1. -/
def bitOf (v k : Nat) : Nat := (v >>> k) % 2

/-! ## Digit renderer -/

/-- One call `ht1621_write_data(addr, data)`, recorded by its arguments. -/
abbrev WriteCall := Nat × Nat

/-- One call `ht1621_display_digit(position, digit, decimal_point)`, recorded
by its arguments. -/
abbrev DigitCall := Nat × Nat × Bool

/-- The local `segments` of `ht1621_display_digit` after the lookup and the
decimal-point step (ht1621.c lines 174-188). -/
def display_digit_segments (digit : Nat) (decimal_point : Bool) : Nat :=
  let segments : Nat :=
    if digit ≤ 9 then digit_segments.getD digit 0
    else if digit ≥ 0x0A ∧ digit ≤ 0x0F then hex_segments.getD (digit - 0x0A) 0
    else if digit = HT1621_BLANK then SEG_BLANK
    else if digit = HT1621_MINUS then SEG_MINUS
    else 0
  if decimal_point then segments ||| SEG_DP else segments

/-- Function `ht1621_display_digit(position, digit, decimal_point)`
(ht1621.c lines 168-200), as the list of `ht1621_write_data` calls it makes. -/
def ht1621_display_digit (position digit : Nat) (decimal_point : Bool) : List WriteCall :=
  if position ≥ HT1621_MAX_DIGITS then []
  else
    let segments := display_digit_segments digit decimal_point
    let addr := (position * 2) % 256
    [(addr, segments &&& 0x0F), ((addr + 1) % 256, (segments >>> 4) &&& 0x0F)]

/-- The memory writes issued by a sequence of `ht1621_display_digit` calls. -/
def digitCallsWrites (calls : List DigitCall) : List WriteCall :=
  calls.flatMap (fun c => ht1621_display_digit c.1 c.2.1 c.2.2)

/-- The pin-event trace of a sequence of `ht1621_write_data` calls. -/
def writesTrace (ws : List WriteCall) : List Event :=
  ws.flatMap (fun w => ht1621_write_data w.1 w.2)

/-! ## Numeric formatters -/

/-- Reduction of an integer to the `int32_t` range (two's complement). -/
def wrap_int32 (x : Int) : Int := (x + 2147483648) % 4294967296 - 2147483648

/-- Digit extraction loop of `ht1621_display_number` (ht1621.c lines 220-223);
the state is `temp`, the array `digits` and `digit_count`.  Every iteration
increments `digit_count`, so six iterations of fuel are enough. -/
def number_extract_loop : Nat → Nat → List Nat → Nat → List Nat × Nat
  | 0, _, digits, digit_count => (digits, digit_count)
  | fuel + 1, temp, digits, digit_count =>
    if temp > 0 ∧ digit_count < HT1621_MAX_DIGITS then
      number_extract_loop fuel (temp / 10) (digits.set digit_count (temp % 10))
        (digit_count + 1)
    else (digits, digit_count)

/-- The loop `for (int i = digit_count - 1; i >= 0 && display_pos <
HT1621_MAX_DIGITS; i--) ht1621_display_digit(display_pos++, digits[i], dp)`
(ht1621.c lines 236-238, 245-247, 285-288).  The first numeric argument is
`i + 1`; the result is the calls made and the final `display_pos`. -/
def render_loop (digits : List Nat) (dp : Nat → Bool) :
    Nat → Nat → List DigitCall × Nat
  | 0, display_pos => ([], display_pos)
  | i + 1, display_pos =>
    if display_pos < HT1621_MAX_DIGITS then
      let r := render_loop digits dp i (display_pos + 1)
      ((display_pos, digits.getD i 0, dp i) :: r.1, r.2)
    else ([], display_pos)

/-- The loop `while (display_pos < HT1621_MAX_DIGITS)
ht1621_display_digit(display_pos++, v, false)` (ht1621.c lines 240-242,
249-251, 290-292), with `fuel` bounding the iterations. -/
def fill_loop (v : Nat) : Nat → Nat → List DigitCall
  | 0, _ => []
  | fuel + 1, display_pos =>
    if display_pos < HT1621_MAX_DIGITS then
      (display_pos, v, false) :: fill_loop v fuel (display_pos + 1)
    else []

/-- Function `ht1621_display_number(number, leading_zeros)` (ht1621.c lines
202-253), as the list of `ht1621_display_digit` calls it makes.  `number` is
an `int32_t`; the negation of line 211 is taken modulo 2^32 and the
conversion to `uint32_t` of line 219 is the residue modulo 2^32. -/
def ht1621_display_number (number : Int) (leading_zeros : Bool) : List DigitCall :=
  let is_negative : Bool := decide (number < 0)
  let number : Int := if number < 0 then wrap_int32 (-number) else number
  let extracted : List Nat × Nat :=
    if number = 0 then ((List.replicate HT1621_MAX_DIGITS 0).set 0 0, 1)
    else number_extract_loop HT1621_MAX_DIGITS (number % 4294967296).toNat
      (List.replicate HT1621_MAX_DIGITS 0) 0
  let digits := extracted.1
  let digit_count := extracted.2
  let display_pos := 0
  let sign : List DigitCall × Nat :=
    if is_negative = true ∧ display_pos < HT1621_MAX_DIGITS then
      ([(display_pos, HT1621_MINUS, false)], display_pos + 1)
    else ([], display_pos)
  if leading_zeros then
    let r := render_loop digits (fun _ => false) digit_count sign.2
    sign.1 ++ r.1 ++ fill_loop 0 HT1621_MAX_DIGITS r.2
  else
    let r := render_loop digits (fun _ => false) digit_count sign.2
    sign.1 ++ r.1 ++ fill_loop HT1621_BLANK HT1621_MAX_DIGITS r.2

/-- Digit extraction loop of `ht1621_display_float` (ht1621.c lines 271-276);
the state is the counter `i`, `scaled`, the array `digits` and
`digit_count`. -/
def float_extract_loop (decimals : Nat) :
    Nat → Nat → Nat → List Nat → Nat → List Nat × Nat
  | 0, _, _, digits, digit_count => (digits, digit_count)
  | fuel + 1, i, scaled, digits, digit_count =>
    if i < 6 then
      let digits := digits.set i (scaled % 10)
      let scaled := scaled / 10
      let digit_count := digit_count + 1
      if scaled = 0 ∧ i ≥ decimals then (digits, digit_count)
      else float_extract_loop decimals fuel (i + 1) scaled digits digit_count
    else (digits, digit_count)

/-- Function `ht1621_display_float(number, decimals)` (ht1621.c lines
255-293), as the list of `ht1621_display_digit` calls it makes.  The float
argument enters through the two values the code derives from it:
`is_negative` (lines 259-263) and the non-negative `scaled`, the truncation
of `|number| * 1000` (line 266). -/
def ht1621_display_float (is_negative : Bool) (scaled : Nat) (decimals : Nat) :
    List DigitCall :=
  let decimals := if decimals > 3 then 3 else decimals
  let extracted := float_extract_loop decimals 6 0 scaled
    (List.replicate HT1621_MAX_DIGITS 0) 0
  let digits := extracted.1
  let digit_count := extracted.2
  let display_pos := 0
  let sign : List DigitCall × Nat :=
    if is_negative = true ∧ display_pos < HT1621_MAX_DIGITS then
      ([(display_pos, HT1621_MINUS, false)], display_pos + 1)
    else ([], display_pos)
  let r := render_loop digits
    (fun i => decide ((i : Int) = (decimals : Int) - 1 ∧ decimals > 0)) digit_count sign.2
  sign.1 ++ r.1 ++ fill_loop HT1621_BLANK HT1621_MAX_DIGITS r.2

/-- Loop of `ht1621_display_hex` (ht1621.c lines 297-300); the numeric
argument is `i + 1`. -/
def hex_loop (number : Nat) : Nat → List DigitCall
  | 0 => []
  | i + 1 =>
    ((HT1621_MAX_DIGITS - 1 - i) % 256, ((number >>> (i * 4)) &&& 0x0F) % 256, false)
      :: hex_loop number i

/-- Function `ht1621_display_hex(number)` (ht1621.c lines 295-301), as the
list of `ht1621_display_digit` calls it makes. -/
def ht1621_display_hex (number : Nat) : List DigitCall :=
  hex_loop number HT1621_MAX_DIGITS

/-- The digit values of a call list, in order. -/
def renderedDigits (calls : List DigitCall) : List Nat := calls.map (fun c => c.2.1)

/-- The positions of a call list, in order. -/
def renderedPositions (calls : List DigitCall) : List Nat := calls.map (fun c => c.1)

/-- The decimal-point flags of a call list, in order. -/
def renderedPoints (calls : List DigitCall) : List Bool := calls.map (fun c => c.2.2)

/-! ## Segment encoding in the words of the specification -/

/-- The seven segments of a digit position. -/
inductive Segment where
  | A
  | B
  | C
  | D
  | E
  | F
  | G
  deriving DecidableEq, Repr

/-- Bit of the segment pattern that drives a segment: bits 6..0 are the
segments G,F,E,D,C,B,A (spec section 3; ht1621.c line 43). -/
def segmentBit : Segment → Nat
  | Segment.A => 0
  | Segment.B => 1
  | Segment.C => 2
  | Segment.D => 3
  | Segment.E => 4
  | Segment.F => 5
  | Segment.G => 6

/-- The canonical seven-segment glyphs of the decimal digits, as the set of
lit segments (0: ABCDEF, 1: BC, 2: ABDEG, 3: ABCDG, 4: BCFG, 5: ACDFG,
6: ACDEFG, 7: ABC, 8: ABCDEFG, 9: ABCDFG). -/
def canonical_glyph : Nat → List Segment
  | 0 => [Segment.A, Segment.B, Segment.C, Segment.D, Segment.E, Segment.F]
  | 1 => [Segment.B, Segment.C]
  | 2 => [Segment.A, Segment.B, Segment.D, Segment.E, Segment.G]
  | 3 => [Segment.A, Segment.B, Segment.C, Segment.D, Segment.G]
  | 4 => [Segment.B, Segment.C, Segment.F, Segment.G]
  | 5 => [Segment.A, Segment.C, Segment.D, Segment.F, Segment.G]
  | 6 => [Segment.A, Segment.C, Segment.D, Segment.E, Segment.F, Segment.G]
  | 7 => [Segment.A, Segment.B, Segment.C]
  | 8 => [Segment.A, Segment.B, Segment.C, Segment.D, Segment.E, Segment.F, Segment.G]
  | 9 => [Segment.A, Segment.B, Segment.C, Segment.D, Segment.F, Segment.G]
  | _ => []

/-- The segment encoding table of spec section 4.3: sixteen entries for the
values 0-15 (digits 0-9, then hex A-F) and the two sentinels, BLANK with all
segments off and MINUS with only the middle segment G. -/
def segment_encoding_table (d : Nat) : Nat :=
  if d = HT1621_BLANK then 0
  else if d = HT1621_MINUS then 2 ^ segmentBit Segment.G
  else (digit_segments ++ hex_segments).getD d 0

/-- The decimal digits of `m`, most-significant first, without leading zeros
(a single 0 for `m = 0`). -/
def decimalDigits (m : Nat) : List Nat :=
  if m = 0 then [0] else (Nat.digits 10 m).reverse

/-- The six-digit zero-padded decimal representation of `m mod 1000000`,
most-significant first. -/
def sixDigits (m : Nat) : List Nat :=
  (List.range 6).map (fun p => (m % 1000000) / 10 ^ (5 - p) % 10)

/-- A list of digit values laid out at positions 0,1,2,... without decimal
points. -/
def atPositions (ds : List Nat) : List DigitCall :=
  ds.enum.map (fun x => (x.1, x.2, false))

/-- The digits that `ht1621_display_number` extracts from the magnitude `m`,
least-significant first: a single 0 for `m = 0`, otherwise the decimal digits
of `m` cut off after the six lowest. -/
def extractedDigits (m : Nat) : List Nat :=
  if m = 0 then [0] else (Nat.digits 10 m).take 6

/-! ## Clearing and initialization -/

/-- Loop of `ht1621_clear` (ht1621.c lines 163-165), as the list of
`ht1621_write_data` calls; `fuel` bounds the iterations and `i` is the
`uint8_t` counter. -/
def clear_loop : Nat → Nat → List WriteCall
  | 0, _ => []
  | fuel + 1, i =>
    if i < 32 then (i, 0x00) :: clear_loop fuel ((i + 1) % 256)
    else []

/-- Function `ht1621_clear()` (ht1621.c lines 161-166), as the list of
`ht1621_write_data` calls it makes.  The counter runs from 0 up to 32, so 32
iterations of fuel are exactly enough. -/
def ht1621_clear : List WriteCall := clear_loop 32 0

/-- What the platform answers during initialization: the results of
`gpio_is_ready_dt` and the return values of `gpio_pin_configure_dt` for the
three signal lines. -/
structure GpioStatus where
  cs_ready : Bool
  wr_ready : Bool
  data_ready : Bool
  cs_configure : Int
  wr_configure : Int
  data_configure : Int

/-- Function `ht1621_init_with_config(bias_com)` (ht1621.c lines 123-159), as
its return value and its pin-event trace.  The errno constant `ENODEV` of the
platform headers is a parameter; the `printk` calls and the configuration
calls themselves are not pin events and leave no entry in the trace. -/
def ht1621_init_with_config (ENODEV : Int) (io : GpioStatus) (bias_com : Nat) :
    Int × List Event :=
  if (!io.cs_ready || !io.wr_ready || !io.data_ready) = true then (-ENODEV, [])
  else if io.cs_configure < 0 then (io.cs_configure, [])
  else if io.wr_configure < 0 then (io.wr_configure, [])
  else if io.data_configure < 0 then (io.data_configure, [])
  else
    (0, [Event.set Pin.CS 1, Event.set Pin.WR 1, Event.set Pin.DATA 1, Event.msleep 100]
      ++ ht1621_send_command (bias_com % 256)
      ++ ht1621_send_command HT1621_CMD_RC_256K
      ++ ht1621_send_command HT1621_CMD_SYS_EN
      ++ ht1621_send_command HT1621_CMD_LCD_ON)

/-- Function `ht1621_init()` (ht1621.c lines 118-121). -/
def ht1621_init (ENODEV : Int) (io : GpioStatus) : Int × List Event :=
  ht1621_init_with_config ENODEV io HT1621_CMD_BIAS_DEFAULT

/-! ## Controller memory -/

/-- The controller memory of spec section 3: 32 addressable 4-bit cells,
given by the content of each address. -/
abbrev Memory := Nat → Nat

/-- Effect of one memory-write frame on the controller memory: the frame
carries the low six bits of the address and the low four bits of the data,
and the cell is updated when the address is one of the 32 cells. -/
def memWrite (m : Memory) (w : WriteCall) : Memory :=
  fun a => if a < 32 ∧ a = w.1 % 64 then w.2 % 16 else m a

/-- Effect of a sequence of memory writes, in order. -/
def memRun (m : Memory) (ws : List WriteCall) : Memory :=
  ws.foldl memWrite m

/-- The pin events of one bit cell of `ht1621_write_bits` carrying the DATA
level `b` (spec section 4.1). -/
def bitCell (b : Nat) : List Event :=
  [Event.set Pin.WR 0, Event.usleep 2, Event.set Pin.DATA b, Event.usleep 2,
   Event.set Pin.WR 1, Event.usleep 2]

/-- A write sequence `ws` renders afresh on the memory `m`: running it twice
leaves the same memory as running it once, cells 0..11 are those obtained by
running it after `ht1621_clear`, every cell from 12 on keeps its content,
and cells 0..11 do not depend on the memory before the run. -/
def rendersAfresh (m : Memory) (ws : List WriteCall) : Prop :=
  (∀ a, memRun (memRun m ws) ws a = memRun m ws a)
    ∧ (∀ a, a < 12 → memRun m ws a = memRun (memRun m ht1621_clear) ws a)
    ∧ (∀ a, 12 ≤ a → memRun m ws a = m a)
    ∧ (∀ (m2 : Memory) (a : Nat), a < 12 → memRun m ws a = memRun m2 ws a)

/-! ## Chip-select framing -/

/-- One protocol operation: a call of `ht1621_write_data` or of
`ht1621_send_command`, recorded by its arguments. -/
inductive FrameCall where
  | write_data (addr data : Nat)
  | send_command (cmd : Nat)
  deriving DecidableEq, Repr

/-- The pin-event trace of one protocol operation. -/
def frameCallTrace : FrameCall → List Event
  | FrameCall.write_data addr data => ht1621_write_data addr data
  | FrameCall.send_command cmd => ht1621_send_command cmd

/-- The pin-event trace of a sequence of protocol operations. -/
def callsTrace (calls : List FrameCall) : List Event :=
  calls.flatMap frameCallTrace

/-- Checked run of a trace from the levels `(cs, wr)` of the CS and WR lines.
The run fails (`none`) when WR or DATA is driven while CS is high, when CS is
driven to the level it already has, or when CS is driven high while WR is
low; otherwise it returns the final levels. -/
def framedRun : Nat × Nat → List Event → Option (Nat × Nat)
  | st, [] => some st
  | (cs, wr), Event.set Pin.CS l :: es =>
    if l = 0 then
      if cs ≠ 0 then framedRun (0, wr) es else none
    else
      if cs = 0 ∧ wr ≠ 0 then framedRun (l, wr) es else none
  | (cs, _), Event.set Pin.WR l :: es =>
    if cs = 0 then framedRun (cs, l) es else none
  | (cs, wr), Event.set Pin.DATA _ :: es =>
    if cs = 0 then framedRun (cs, wr) es else none
  | st, Event.usleep _ :: es => framedRun st es
  | st, Event.msleep _ :: es => framedRun st es

/-- Number of calls of a call list that carry the decimal-point flag. -/
def pointCount (calls : List DigitCall) : Nat :=
  calls.countP (fun c => c.2.2)

/-- Number of memory writes of a write list that go to the high nibble of a
digit position (odd address) with bit 3, the decimal-point bit, set. -/
def pointBitCount (ws : List WriteCall) : Nat :=
  ws.countP (fun w => decide (w.1 % 2 = 1) && w.2.testBit 3)

/-- The value of `digit_count` after the extraction loop of
`ht1621_display_float` (ht1621.c lines 271-276) for the scaled value `scaled`
and the clamped `decimals`. -/
def float_digit_count (scaled decimals : Nat) : Nat :=
  (float_extract_loop decimals 6 0 scaled (List.replicate HT1621_MAX_DIGITS 0) 0).2

/-! ## Auxiliary lemmas -/

/-! ### Bit serializer -/

theorem and_one_shiftLeft_ne_zero (v k : Nat) :
    v &&& (1 <<< k) ≠ 0 ↔ bitOf v k = 1 := by
  have hb : bitOf v k = 1 ↔ v.testBit k = true := by
    unfold bitOf
    rw [Nat.testBit_to_div_mod, Nat.shiftRight_eq_div_pow]
    simp
  rw [hb, Nat.one_shiftLeft]
  constructor
  · intro h
    by_contra hn
    apply h
    apply Nat.eq_of_testBit_eq
    intro i
    simp only [Nat.testBit_and, Nat.testBit_two_pow, Nat.zero_testBit]
    by_cases hki : k = i
    · subst hki; simp [hn]
    · simp [hki]
  · intro h h0
    have := congrArg (fun x => Nat.testBit x k) h0
    simp [Nat.testBit_two_pow, h] at this

theorem bitOf_lt_two (v k : Nat) : bitOf v k < 2 := by
  unfold bitOf; omega

theorem data_level_eq (v k : Nat) :
    (if v &&& (1 <<< k) ≠ 0 then Event.set Pin.DATA 1 else Event.set Pin.DATA 0)
      = Event.set Pin.DATA (bitOf v k) := by
  by_cases h : v &&& (1 <<< k) ≠ 0
  · rw [if_pos h, (and_one_shiftLeft_ne_zero v k).1 h]
  · rw [if_neg h]
    have h1 : bitOf v k ≠ 1 := fun h1 => h ((and_one_shiftLeft_ne_zero v k).2 h1)
    have h2 := bitOf_lt_two v k
    have : bitOf v k = 0 := by omega
    rw [this]

theorem risingEdgeData_write_bits_loop (v bits : Nat) :
    ∀ (fuel i wr d : Nat) (rest : List Event), i + fuel = bits →
      ∃ wr2 d2, risingEdgeData wr d (write_bits_loop v bits fuel i ++ rest)
        = (List.range' i fuel).map (fun j => bitOf v (bits - 1 - j))
            ++ risingEdgeData wr2 d2 rest := by
  intro fuel
  induction fuel with
  | zero => intro i wr d rest _; exact ⟨wr, d, by simp [write_bits_loop]⟩
  | succ n ih =>
    intro i wr d rest h
    have hi : i < bits := by omega
    obtain ⟨wr2, d2, h2⟩ := ih (i + 1) 1 (bitOf v (bits - 1 - i)) rest (by omega)
    refine ⟨wr2, d2, ?_⟩
    rw [write_bits_loop, if_pos hi, data_level_eq]
    simp only [List.cons_append, List.nil_append, risingEdgeData, List.range'_succ, List.map_cons]
    simp [h2]

theorem risingEdgeData_write_bits (v bits wr d : Nat) (rest : List Event) :
    ∃ wr2 d2, risingEdgeData wr d (ht1621_write_bits v bits ++ rest)
      = (List.range bits).map (fun j => bitOf v (bits - 1 - j))
          ++ risingEdgeData wr2 d2 rest := by
  obtain ⟨wr2, d2, h⟩ := risingEdgeData_write_bits_loop v bits bits 0 wr d rest (by omega)
  exact ⟨wr2, d2, by rw [ht1621_write_bits, h, List.range_eq_range']⟩

theorem csEvents_write_bits_loop (v bits : Nat) :
    ∀ (fuel i : Nat), csEvents (write_bits_loop v bits fuel i) = [] := by
  intro fuel
  induction fuel with
  | zero => intro i; rfl
  | succ n ih =>
    intro i
    rw [write_bits_loop]
    split
    · rw [data_level_eq]
      have := ih (i + 1)
      simp only [csEvents] at this ⊢
      simp [List.filter_cons, this]
    · rfl

theorem csEvents_write_bits (v bits : Nat) : csEvents (ht1621_write_bits v bits) = [] :=
  csEvents_write_bits_loop v bits bits 0

theorem csEvents_append (a b : List Event) : csEvents (a ++ b) = csEvents a ++ csEvents b := by
  simp [csEvents]

theorem risingEdgeData_cs (wr d l : Nat) (es : List Event) :
    risingEdgeData wr d (Event.set Pin.CS l :: es) = risingEdgeData wr d es := by
  simp [risingEdgeData]

theorem risingEdgeData_usleep (wr d n : Nat) (es : List Event) :
    risingEdgeData wr d (Event.usleep n :: es) = risingEdgeData wr d es := by
  simp [risingEdgeData]

/-! ### Frames -/

/-- C1: evaluation of `ht1621_write_data` at address 0x15 and nibble 0x9.  The
frame clocks 13 bits, the six address bits and the four data bits are sent
most-significant first, but the three mode bits are 0,0,0 instead of 1,0,1:
`ht1621_write_bits(0xA0, 3)` sends bits 2..0 of 0xA0. -/
theorem write_data_mode_bits_are_zero :
    risingEdgeData 1 1 (ht1621_write_data 0x15 0x9)
        = [0, 0, 0, 0, 1, 0, 1, 0, 1, 1, 0, 0, 1]
      ∧ risingEdgeData 1 1 (ht1621_write_data 0x15 0x9)
        ≠ [1, 0, 1, 0, 1, 0, 1, 0, 1, 1, 0, 0, 1] := by
  decide

/-- C2, as stated, fails: the command frame for cmd = 0x29 clocks 12 bits, not
11, and the DATA levels are not 1,0,0 followed by the bits of 0x29. -/
theorem send_command_not_eleven_bits :
    ¬ ((risingEdgeData 1 1 (ht1621_send_command 0x29)).length = 11
        ∧ risingEdgeData 1 1 (ht1621_send_command 0x29)
          = [1, 0, 0] ++ (List.range 8).map (fun j => bitOf 0x29 (7 - j))) := by
  decide

/-- C2, amended: for every 8-bit command and whatever the line levels before
the call, `ht1621_send_command(cmd)` emits one frame (CS low first, CS high
last, CS untouched in between) that clocks exactly 12 bits, and the DATA
levels at the last eight WR rising edges are the bits of cmd,
most-significant first. -/
theorem send_command_twelve_bits (cmd wr d : Nat) (hcmd : cmd < 256) :
    isFrame (ht1621_send_command cmd)
      ∧ (risingEdgeData wr d (ht1621_send_command cmd)).length = 12
      ∧ (risingEdgeData wr d (ht1621_send_command cmd)).drop 4
          = (List.range 8).map (fun j => bitOf cmd (7 - j)) := by
  have _ := hcmd
  constructor
  · refine ⟨ht1621_write_bits 0x80 4 ++ ht1621_write_bits cmd 8, ?_, ?_⟩
    · simp [ht1621_send_command]
    · rw [csEvents_append, csEvents_write_bits, csEvents_write_bits]; rfl
  · obtain ⟨wr1, d1, h1⟩ := risingEdgeData_write_bits 0x80 4 wr d
      (ht1621_write_bits cmd 8 ++ [Event.set Pin.CS 1, Event.usleep HT1621_DELAY_US])
    obtain ⟨wr2, d2, h2⟩ := risingEdgeData_write_bits cmd 8 wr1 d1
      [Event.set Pin.CS 1, Event.usleep HT1621_DELAY_US]
    have h : risingEdgeData wr d (ht1621_send_command cmd)
        = (List.range 4).map (fun j => bitOf 0x80 (4 - 1 - j))
          ++ (List.range 8).map (fun j => bitOf cmd (8 - 1 - j)) := by
      rw [ht1621_send_command]
      simp only [List.cons_append, List.nil_append, List.append_assoc]
      rw [risingEdgeData_cs, risingEdgeData_usleep, h1, h2, risingEdgeData_cs,
        risingEdgeData_usleep]
      simp [risingEdgeData]
    rw [h]
    constructor
    · simp
    · rw [List.drop_append_of_le_length (by simp)]
      simp

/-- Witness of `send_command_twelve_bits` at cmd = 0x29, from idle lines. -/
theorem send_command_twelve_bits_witness :
    0x29 < 256
      ∧ isFrame (ht1621_send_command 0x29)
      ∧ (risingEdgeData 1 1 (ht1621_send_command 0x29)).length = 12
      ∧ (risingEdgeData 1 1 (ht1621_send_command 0x29)).drop 4
          = (List.range 8).map (fun j => bitOf 0x29 (7 - j)) :=
  ⟨by decide, send_command_twelve_bits 0x29 1 1 (by decide)⟩

/-! ### Digit renderer -/

theorem display_digit_documented_aux :
    ∀ p < 6, ∀ d ∈ [0,1,2,3,4,5,6,7,8,9,10,11,12,13,14,15,255,254], ∀ dp : Bool,
      ht1621_display_digit p d dp
          = [(2 * p, display_digit_segments d dp &&& 0x0F),
             (2 * p + 1, (display_digit_segments d dp >>> 4) &&& 0x0F)]
        ∧ display_digit_segments d dp &&& 0x0F < 16
        ∧ (display_digit_segments d dp >>> 4) &&& 0x0F < 16
        ∧ ((display_digit_segments d dp &&& 0x0F)
            ||| (((display_digit_segments d dp >>> 4) &&& 0x0F) <<< 4)) % 128
            = segment_encoding_table d
        ∧ ((display_digit_segments d dp &&& 0x0F)
            ||| (((display_digit_segments d dp >>> 4) &&& 0x0F) <<< 4)).testBit 7 = dp
        ∧ (d ≤ 9 → ∀ s ∈ [Segment.A, Segment.B, Segment.C, Segment.D, Segment.E,
              Segment.F, Segment.G],
            ((display_digit_segments d dp &&& 0x0F)
              ||| (((display_digit_segments d dp >>> 4) &&& 0x0F) <<< 4)).testBit (segmentBit s)
              = decide (s ∈ canonical_glyph d)) := by
  decide

theorem documented_digit_mem (d : Nat)
    (hd : d ≤ 15 ∨ d = HT1621_BLANK ∨ d = HT1621_MINUS) :
    d ∈ [0,1,2,3,4,5,6,7,8,9,10,11,12,13,14,15,255,254] := by
  rcases hd with h | h | h
  · interval_cases d <;> simp
  · simp [h, HT1621_BLANK]
  · simp [h, HT1621_MINUS]

/-- C3: for every position p in 0..5, every documented digit value d (0..15,
HT1621_BLANK, HT1621_MINUS) and every decimal-point flag,
`ht1621_display_digit(p, d, dp)` issues exactly two memory writes, the first
to address 2*p and the second to address 2*p+1, each carrying a nibble, and
the nibbles recombine as low | (high << 4) to a byte whose low seven bits are
the table pattern of d and whose bit 7 is set exactly when dp is true. -/
theorem display_digit_two_nibbles (p d : Nat) (dp : Bool) (hp : p < 6)
    (hd : d ≤ 15 ∨ d = HT1621_BLANK ∨ d = HT1621_MINUS) :
    ∃ lo hi, ht1621_display_digit p d dp = [(2 * p, lo), (2 * p + 1, hi)]
      ∧ lo < 16 ∧ hi < 16
      ∧ (lo ||| (hi <<< 4)) % 128 = segment_encoding_table d
      ∧ (lo ||| (hi <<< 4)).testBit 7 = dp := by
  obtain ⟨h1, h2, h3, h4, h5, _⟩ :=
    display_digit_documented_aux p hp d (documented_digit_mem d hd) dp
  exact ⟨_, _, h1, h2, h3, h4, h5⟩

/-- Witness of `display_digit_two_nibbles`: the minus sign with decimal point
at position 2. -/
theorem display_digit_two_nibbles_witness :
    (2 < 6 ∧ (0xFE ≤ 15 ∨ 0xFE = HT1621_BLANK ∨ 0xFE = HT1621_MINUS))
      ∧ ∃ lo hi, ht1621_display_digit 2 0xFE true = [(2 * 2, lo), (2 * 2 + 1, hi)]
        ∧ lo < 16 ∧ hi < 16
        ∧ (lo ||| (hi <<< 4)) % 128 = segment_encoding_table 0xFE
        ∧ (lo ||| (hi <<< 4)).testBit 7 = true :=
  ⟨⟨by decide, by decide⟩, display_digit_two_nibbles 2 0xFE true (by decide) (by decide)⟩

/-- C10: for every digit d in 0..9 (at any position 0..5), the segment pattern
written by `ht1621_display_digit` has bit `segmentBit s` set exactly for the
segments s of the canonical seven-segment glyph of d, and bit 7 set exactly
when decimal_point is true. -/
theorem display_digit_canonical_glyph (p d : Nat) (dp : Bool) (hp : p < 6) (hd : d ≤ 9) :
    ∃ lo hi, ht1621_display_digit p d dp = [(2 * p, lo), (2 * p + 1, hi)]
      ∧ (∀ s : Segment,
          (lo ||| (hi <<< 4)).testBit (segmentBit s) = decide (s ∈ canonical_glyph d))
      ∧ (lo ||| (hi <<< 4)).testBit 7 = dp := by
  obtain ⟨h1, _, _, _, h5, h6⟩ :=
    display_digit_documented_aux p hp d (documented_digit_mem d (Or.inl (by omega))) dp
  refine ⟨_, _, h1, ?_, h5⟩
  intro s
  apply h6 hd
  cases s <;> simp

/-- Witness of `display_digit_canonical_glyph`: digit 4 with decimal point at
position 5. -/
theorem display_digit_canonical_glyph_witness :
    (5 < 6 ∧ 4 ≤ 9)
      ∧ ∃ lo hi, ht1621_display_digit 5 4 true = [(2 * 5, lo), (2 * 5 + 1, hi)]
        ∧ (∀ s : Segment,
            (lo ||| (hi <<< 4)).testBit (segmentBit s) = decide (s ∈ canonical_glyph 4))
        ∧ (lo ||| (hi <<< 4)).testBit 7 = true :=
  ⟨⟨by decide, by decide⟩, display_digit_canonical_glyph 5 4 true (by decide) (by decide)⟩

/-! ### Formatters on documented examples -/

/-- C4: evaluation of `ht1621_display_number(7, true)`.  The digit 7 is
rendered at position 0 and the zero padding follows it ("700000"); the
documented rendering 0,0,0,0,0,7 ("000007") is not produced. -/
theorem display_number_seven_zero_padded :
    ht1621_display_number 7 true = atPositions [7, 0, 0, 0, 0, 0]
      ∧ ht1621_display_number 7 true ≠ atPositions (sixDigits 7) := by
  decide

/-- C7: evaluation of `ht1621_display_float` on the three documented examples.
All extracted digits of the scaled value are rendered and the decimal point
sits on the digit of index `decimals - 1` from the end: 3.14159 with two
decimals shows "314.1 ", -98.765 with one decimal shows "-98765." and 42.0
with no decimals shows "42000 ", not "3.14  ", "-98.7 " and "42    ". -/
theorem display_float_documented_examples :
    ht1621_display_float false 3141 2
        = [(0, 3, false), (1, 1, false), (2, 4, true), (3, 1, false),
           (4, HT1621_BLANK, false), (5, HT1621_BLANK, false)]
      ∧ ht1621_display_float true 98765 1
        = [(0, HT1621_MINUS, false), (1, 9, false), (2, 8, false), (3, 7, false),
           (4, 6, false), (5, 5, true)]
      ∧ ht1621_display_float false 42000 0
        = [(0, 4, false), (1, 2, false), (2, 0, false), (3, 0, false),
           (4, 0, false), (5, HT1621_BLANK, false)]
      ∧ ht1621_display_float false 3141 2
        ≠ [(0, 3, true), (1, 1, false), (2, 4, false), (3, HT1621_BLANK, false),
           (4, HT1621_BLANK, false), (5, HT1621_BLANK, false)] := by
  decide

/-! ### Hexadecimal formatter -/

theorem and_15_eq_mod (x : Nat) : x &&& 15 = x % 16 := by
  have := Nat.and_pow_two_sub_one_eq_mod x 4
  simpa using this

theorem display_hex_eq (v : Nat) :
    ht1621_display_hex v
      = (List.range 6).map (fun p => (p, (v >>> (4 * (5 - p))) &&& 0x0F, false)) := by
  have h : ∀ x : Nat, (x &&& 15) % 256 = x &&& 15 := by
    intro x; rw [and_15_eq_mod]; omega
  simp [ht1621_display_hex, hex_loop, HT1621_MAX_DIGITS, h, List.range, List.range.loop]

/-- C8: for every v with 0 <= v <= 0xFFFFFF, `ht1621_display_hex(v)` renders at
each position p in 0..5 the nibble (v >> (4*(5-p))) & 0xF; every rendered
value is a hex digit 0..15 (never BLANK or MINUS) without decimal point, and
the six digits read most-significant first are the base-16 representation of
v.  In particular 0x42 renders 0,0,0,0,4,2 and 0xABCDEF renders A,B,C,D,E,F. -/
theorem display_hex_all_nibbles (v : Nat) (hv : v ≤ 0xFFFFFF) :
    ht1621_display_hex v
        = (List.range 6).map (fun p => (p, (v >>> (4 * (5 - p))) &&& 0x0F, false))
      ∧ (∀ c ∈ ht1621_display_hex v,
          c.2.1 ≤ 15 ∧ c.2.1 ≠ HT1621_BLANK ∧ c.2.1 ≠ HT1621_MINUS ∧ c.2.2 = false)
      ∧ Nat.ofDigits 16 (renderedDigits (ht1621_display_hex v)).reverse = v
      ∧ renderedDigits (ht1621_display_hex 0x42) = [0, 0, 0, 0, 4, 2]
      ∧ renderedDigits (ht1621_display_hex 0xABCDEF) = [0xA, 0xB, 0xC, 0xD, 0xE, 0xF] := by
  refine ⟨display_hex_eq v, ?_, ?_, by decide, by decide⟩
  · intro c hc
    rw [display_hex_eq] at hc
    simp only [List.mem_map, List.mem_range] at hc
    obtain ⟨p, _, rfl⟩ := hc
    simp only [and_15_eq_mod, HT1621_BLANK, HT1621_MINUS]
    generalize v >>> (4 * (5 - p)) = x
    refine ⟨by omega, by omega, by omega, trivial⟩
  · rw [display_hex_eq]
    simp only [renderedDigits, List.map_map]
    simp [List.range, List.range.loop, Nat.ofDigits, and_15_eq_mod, Nat.shiftRight_eq_div_pow]
    omega

/-- Witness of `display_hex_all_nibbles` at v = 0xABCDEF. -/
theorem display_hex_all_nibbles_witness :
    0xABCDEF ≤ 0xFFFFFF
      ∧ ht1621_display_hex 0xABCDEF
          = (List.range 6).map (fun p => (p, (0xABCDEF >>> (4 * (5 - p))) &&& 0x0F, false))
      ∧ (∀ c ∈ ht1621_display_hex 0xABCDEF,
          c.2.1 ≤ 15 ∧ c.2.1 ≠ HT1621_BLANK ∧ c.2.1 ≠ HT1621_MINUS ∧ c.2.2 = false)
      ∧ Nat.ofDigits 16 (renderedDigits (ht1621_display_hex 0xABCDEF)).reverse = 0xABCDEF
      ∧ renderedDigits (ht1621_display_hex 0x42) = [0, 0, 0, 0, 4, 2]
      ∧ renderedDigits (ht1621_display_hex 0xABCDEF) = [0xA, 0xB, 0xC, 0xD, 0xE, 0xF] :=
  ⟨by decide, display_hex_all_nibbles 0xABCDEF (by decide)⟩

/-! ### Integer and float formatters -/


theorem number_magnitude (n : Int) (h1 : -2147483648 ≤ n) (h2 : n ≤ 2147483647) :
    ((if n < 0 then wrap_int32 (-n) else n) = 0 ↔ n = 0)
      ∧ ((if n < 0 then wrap_int32 (-n) else n) % 4294967296).toNat = n.natAbs := by
  unfold wrap_int32
  split <;> constructor <;> omega

theorem take_set_self (l : List Nat) (c a : Nat) : (l.set c a).take c = l.take c := by
  rw [List.set_take]
  apply List.set_eq_of_length_le
  simp

theorem number_extract_loop_spec :
    ∀ (fuel temp : Nat) (ds : List Nat) (c : Nat), ds.length = 6 → c + fuel = 6 →
      (number_extract_loop fuel temp ds c).2 = c + min fuel (Nat.digits 10 temp).length
        ∧ (number_extract_loop fuel temp ds c).1.take (number_extract_loop fuel temp ds c).2
            = ds.take c ++ (Nat.digits 10 temp).take fuel
        ∧ (number_extract_loop fuel temp ds c).1.length = 6 := by
  intro fuel
  induction fuel with
  | zero => intro temp ds c hl _; simp [number_extract_loop, hl]
  | succ f ih =>
    intro temp ds c hl hc
    have hc6 : c < 6 := by omega
    by_cases ht : temp > 0
    · have hcond : temp > 0 ∧ c < HT1621_MAX_DIGITS := ⟨ht, hc6⟩
      rw [number_extract_loop, if_pos hcond]
      obtain ⟨e1, e2, e3⟩ := ih (temp / 10) (ds.set c (temp % 10)) (c + 1)
        (by simp [hl]) (by omega)
      have hd : Nat.digits 10 temp = (temp % 10) :: Nat.digits 10 (temp / 10) :=
        Nat.digits_def' (by norm_num) ht
      refine ⟨?_, ?_, e3⟩
      · rw [e1, hd]; simp; omega
      · rw [e2, hd]
        have : (ds.set c (temp % 10)).take (c + 1) = ds.take c ++ [temp % 10] := by
          rw [List.take_succ]
          simp [take_set_self, hl, hc6, List.getElem?_set]
        rw [this]; simp
    · have ht0 : temp = 0 := by omega
      have hcond : ¬ (temp > 0 ∧ c < HT1621_MAX_DIGITS) := fun h => ht h.1
      rw [number_extract_loop, if_neg hcond]
      subst ht0
      simp [hl]


theorem fill_loop_eq (v : Nat) :
    ∀ (fuel pos : Nat), 6 ≤ pos + fuel → pos ≤ 6 →
      fill_loop v fuel pos
        = ((List.replicate (6 - pos) v).enumFrom pos).map (fun x => (x.1, x.2, false)) := by
  intro fuel
  induction fuel with
  | zero =>
    intro pos h1 h2
    have : 6 - pos = 0 := by omega
    simp [fill_loop, this]
  | succ f ih =>
    intro pos h1 h2
    rw [fill_loop]
    by_cases hp : pos < HT1621_MAX_DIGITS
    · rw [if_pos hp]
      have hp6 : pos < 6 := hp
      rw [ih (pos + 1) (by omega) (by omega)]
      have : 6 - pos = (6 - (pos + 1)) + 1 := by omega
      rw [this, List.replicate_succ, List.enumFrom_cons, List.map_cons]
    · rw [if_neg hp]
      have hp6 : ¬ pos < 6 := hp
      have : 6 - pos = 0 := by omega
      simp [this]

theorem render_fill_eq (digits : List Nat) (v : Nat) :
    ∀ (k pos : Nat), k ≤ digits.length → pos ≤ 6 →
      (render_loop digits (fun _ => false) k pos).1
          ++ fill_loop v HT1621_MAX_DIGITS (render_loop digits (fun _ => false) k pos).2
        = ((((digits.take k).reverse ++ List.replicate 6 v).take (6 - pos)).enumFrom pos).map
            (fun x => (x.1, x.2, false)) := by
  intro k
  induction k with
  | zero =>
    intro pos _ hp
    simp only [render_loop, List.nil_append, List.take_zero, List.reverse_nil]
    rw [fill_loop_eq v HT1621_MAX_DIGITS pos (by simp [HT1621_MAX_DIGITS]) hp]
    rw [List.take_replicate]
    have : min (6 - pos) 6 = 6 - pos := by omega
    rw [this]
  | succ i ih =>
    intro pos hk hp
    have hi : i < digits.length := by omega
    have hrev : (digits.take (i + 1)).reverse = digits.getD i 0 :: (digits.take i).reverse := by
      rw [List.take_succ, List.reverse_append]
      simp [List.getElem?_eq_getElem hi, List.getD_eq_getElem?_getD]
    rw [render_loop]
    by_cases hp6 : pos < HT1621_MAX_DIGITS
    · rw [if_pos hp6]
      have hp6b : pos < 6 := hp6
      have h := ih (pos + 1) (by omega) (by omega)
      simp only [List.cons_append]
      rw [h, hrev]
      have : 6 - pos = (6 - (pos + 1)) + 1 := by omega
      rw [this, List.cons_append, List.take_succ_cons, List.enumFrom_cons, List.map_cons]
    · rw [if_neg hp6]
      have hp6b : ¬ pos < 6 := hp6
      have h0 : 6 - pos = 0 := by omega
      simp only [List.nil_append]
      rw [fill_loop_eq v HT1621_MAX_DIGITS pos (by simp [HT1621_MAX_DIGITS]) hp, h0]
      simp

theorem positions_enumFrom (pos : Nat) (l : List Nat) :
    renderedPositions ((l.enumFrom pos).map (fun x => (x.1, x.2, false)))
      = List.range' pos l.length := by
  rw [renderedPositions, List.map_map]
  exact List.enumFrom_map_fst pos l

theorem render_fill_positions (digits : List Nat) (dp : Nat → Bool) (v : Nat) :
    ∀ (k pos : Nat), pos ≤ 6 →
      renderedPositions ((render_loop digits dp k pos).1
          ++ fill_loop v HT1621_MAX_DIGITS (render_loop digits dp k pos).2)
        = List.range' pos (6 - pos) := by
  intro k
  induction k with
  | zero =>
    intro pos hp
    simp only [render_loop, List.nil_append]
    rw [fill_loop_eq v HT1621_MAX_DIGITS pos (by simp [HT1621_MAX_DIGITS]) hp]
    rw [positions_enumFrom]
    simp
  | succ i ih =>
    intro pos hp
    rw [render_loop]
    by_cases hp6 : pos < HT1621_MAX_DIGITS
    · rw [if_pos hp6]
      have hp6b : pos < 6 := hp6
      have h := ih (pos + 1) (by omega)
      have : 6 - pos = (6 - (pos + 1)) + 1 := by omega
      rw [this, List.range'_succ]
      simp only [renderedPositions, List.cons_append, List.map_cons] at h ⊢
      rw [h]
    · rw [if_neg hp6]
      have hp6b : ¬ pos < 6 := hp6
      have h0 : 6 - pos = 0 := by omega
      simp only [List.nil_append]
      rw [fill_loop_eq v HT1621_MAX_DIGITS pos (by simp [HT1621_MAX_DIGITS]) hp, h0]
      simp [renderedPositions]


theorem display_number_eq (n : Int) (lz : Bool)
    (h1 : -2147483648 ≤ n) (h2 : n ≤ 2147483647) :
    ht1621_display_number n lz
      = atPositions (((if n < 0 then [HT1621_MINUS] else [])
          ++ (extractedDigits n.natAbs).reverse
          ++ List.replicate 6 (if lz = true then 0 else HT1621_BLANK)).take 6) := by
  obtain ⟨hz, hm⟩ := number_magnitude n h1 h2
  -- the extraction result
  have hex : ∃ digits count,
      (if (if n < 0 then wrap_int32 (-n) else n) = 0 then
          ((List.replicate HT1621_MAX_DIGITS 0).set 0 0, 1)
        else number_extract_loop HT1621_MAX_DIGITS
          ((if n < 0 then wrap_int32 (-n) else n) % 4294967296).toNat
          (List.replicate HT1621_MAX_DIGITS 0) 0) = (digits, count)
      ∧ count ≤ digits.length ∧ digits.take count = extractedDigits n.natAbs := by
    by_cases h0 : n = 0
    · subst h0
      exact ⟨(List.replicate HT1621_MAX_DIGITS 0).set 0 0, 1, by simp,
        by simp [HT1621_MAX_DIGITS], by simp [extractedDigits, HT1621_MAX_DIGITS]⟩
    · have hne : ¬ (if n < 0 then wrap_int32 (-n) else n) = 0 := fun h => h0 (hz.1 h)
      rw [if_neg hne, hm]
      obtain ⟨e1, e2, e3⟩ := number_extract_loop_spec 6 n.natAbs (List.replicate 6 0) 0
        (by simp) (by simp)
      refine ⟨_, _, rfl, ?_, ?_⟩
      · show (number_extract_loop 6 n.natAbs (List.replicate 6 0) 0).2
          ≤ (number_extract_loop 6 n.natAbs (List.replicate 6 0) 0).1.length
        rw [e1, e3]; omega
      · show (number_extract_loop 6 n.natAbs (List.replicate 6 0) 0).1.take
          (number_extract_loop 6 n.natAbs (List.replicate 6 0) 0).2 = _
        rw [e2]
        have : n.natAbs ≠ 0 := by omega
        simp [extractedDigits, this]
  obtain ⟨digits, count, he, hc, ht⟩ := hex
  unfold ht1621_display_number
  simp only [he]
  by_cases hneg : n < 0
  · have hs : (decide (n < 0) = true ∧ 0 < HT1621_MAX_DIGITS) := ⟨by simpa using hneg, by decide⟩
    simp only [if_pos hs, if_pos hneg]
    cases lz
    · simp only [Bool.false_eq_true, if_false, List.append_assoc]
      rw [render_fill_eq digits HT1621_BLANK count 1 hc (by omega), ht]
      simp [atPositions, List.enum, List.enumFrom_cons]
    · simp only [if_true, List.append_assoc]
      rw [render_fill_eq digits 0 count 1 hc (by omega), ht]
      simp [atPositions, List.enum, List.enumFrom_cons]
  · have hs : ¬ (decide (n < 0) = true ∧ 0 < HT1621_MAX_DIGITS) := fun h => hneg (by simpa using h.1)
    simp only [if_neg hs, if_neg hneg]
    cases lz
    · simp only [Bool.false_eq_true, if_false, List.nil_append]
      rw [render_fill_eq digits HT1621_BLANK count 0 hc (by omega), ht]
      simp [atPositions, List.enum]
    · simp only [if_true, List.nil_append]
      rw [render_fill_eq digits 0 count 0 hc (by omega), ht]
      simp [atPositions, List.enum]


theorem digits_length_le (m k : Nat) (h : m < 10 ^ k) : (Nat.digits 10 m).length ≤ k := by
  by_cases hm : m = 0
  · subst hm; simp
  · by_contra hc
    have h1 := Nat.base_pow_length_digits_le 10 m (by norm_num) hm
    have h2 : 10 ^ (k + 1) ≤ 10 ^ (Nat.digits 10 m).length :=
      Nat.pow_le_pow_right (by norm_num) (by omega)
    rw [pow_succ] at h2
    omega

theorem extractedDigits_reverse_small (m : Nat) (h : m < 1000000) :
    (extractedDigits m).reverse = decimalDigits m := by
  unfold extractedDigits decimalDigits
  split
  · rfl
  · rw [List.take_of_length_le (digits_length_le m 6 (by simpa using h))]

theorem decimalDigits_length_le (m k : Nat) (hk : 0 < k) (h : m < 10 ^ k) :
    (decimalDigits m).length ≤ k := by
  unfold decimalDigits
  split
  · simpa using hk
  · simpa using digits_length_le m k h

theorem decimalDigits_le_nine (m : Nat) : ∀ d ∈ decimalDigits m, d ≤ 9 := by
  intro d hd
  unfold decimalDigits at hd
  split at hd
  · simp at hd; omega
  · have := Nat.digits_lt_base (b := 10) (m := m) (by norm_num) (List.mem_reverse.1 hd)
    omega

theorem take_six_append_replicate (l : List Nat) (v : Nat) (h : l.length ≤ 6) :
    (l ++ List.replicate 6 v).take 6 = l ++ List.replicate (6 - l.length) v := by
  rw [List.take_append_eq_append_take, List.take_of_length_le h, List.take_replicate]
  congr 2
  omega

theorem extractedDigits_large (m : Nat) (h : 1000000 ≤ m) :
    (extractedDigits m).reverse = sixDigits m := by
  have d0 : Nat.digits 10 m = (m % 10) :: Nat.digits 10 (m / 10) :=
    Nat.digits_def' (by norm_num) (by omega)
  have d1 : Nat.digits 10 (m / 10) = (m / 10 % 10) :: Nat.digits 10 (m / 10 / 10) :=
    Nat.digits_def' (by norm_num) (by omega)
  have d2 : Nat.digits 10 (m / 10 / 10)
      = (m / 10 / 10 % 10) :: Nat.digits 10 (m / 10 / 10 / 10) :=
    Nat.digits_def' (by norm_num) (by omega)
  have d3 : Nat.digits 10 (m / 10 / 10 / 10)
      = (m / 10 / 10 / 10 % 10) :: Nat.digits 10 (m / 10 / 10 / 10 / 10) :=
    Nat.digits_def' (by norm_num) (by omega)
  have d4 : Nat.digits 10 (m / 10 / 10 / 10 / 10)
      = (m / 10 / 10 / 10 / 10 % 10) :: Nat.digits 10 (m / 10 / 10 / 10 / 10 / 10) :=
    Nat.digits_def' (by norm_num) (by omega)
  have d5 : Nat.digits 10 (m / 10 / 10 / 10 / 10 / 10)
      = (m / 10 / 10 / 10 / 10 / 10 % 10)
          :: Nat.digits 10 (m / 10 / 10 / 10 / 10 / 10 / 10) :=
    Nat.digits_def' (by norm_num) (by omega)
  have hm : m ≠ 0 := by omega
  unfold extractedDigits sixDigits
  rw [if_neg hm, d0, d1, d2, d3, d4, d5]
  simp only [List.take_succ_cons, List.take_zero, List.reverse_cons, List.reverse_nil,
    List.nil_append, List.cons_append, List.range, List.range.loop, List.map_cons, List.map_nil]
  norm_num
  omega


/-- C5: with leading_zeros = false the integer formatter is left-aligned and
blank-filled.  For every n with -99999 <= n <= 999999 the six positions 0..5
hold HT1621_MINUS first exactly when n < 0, then the decimal digits of |n|
without leading zeros, most-significant first, then HT1621_BLANK at every
remaining position; the sign and the digits fit in six positions and every
digit is at most 9.  In particular 0 renders 0 then five blanks, -42 renders
MINUS,4,2 then three blanks, and 12345 renders 1,2,3,4,5 then one blank. -/
theorem display_number_left_aligned (n : Int) (h1 : -99999 ≤ n) (h2 : n ≤ 999999) :
    ht1621_display_number n false
        = atPositions ((if n < 0 then [HT1621_MINUS] else [])
            ++ decimalDigits n.natAbs
            ++ List.replicate
                (6 - ((if n < 0 then 1 else 0) + (decimalDigits n.natAbs).length))
                HT1621_BLANK)
      ∧ (if n < 0 then 1 else 0) + (decimalDigits n.natAbs).length ≤ 6
      ∧ (∀ d ∈ decimalDigits n.natAbs, d ≤ 9)
      ∧ ht1621_display_number 0 false
        = atPositions [0, HT1621_BLANK, HT1621_BLANK, HT1621_BLANK, HT1621_BLANK, HT1621_BLANK]
      ∧ ht1621_display_number (-42) false
        = atPositions [HT1621_MINUS, 4, 2, HT1621_BLANK, HT1621_BLANK, HT1621_BLANK]
      ∧ ht1621_display_number 12345 false
        = atPositions [1, 2, 3, 4, 5, HT1621_BLANK] := by
  have hlen : (if n < 0 then 1 else 0) + (decimalDigits n.natAbs).length ≤ 6 := by
    by_cases hneg : n < 0
    · have := decimalDigits_length_le n.natAbs 5 (by norm_num) (by norm_num; omega)
      rw [if_pos hneg]; omega
    · have := decimalDigits_length_le n.natAbs 6 (by norm_num) (by norm_num; omega)
      rw [if_neg hneg]; omega
  refine ⟨?_, hlen, decimalDigits_le_nine _, by decide, by decide, by decide⟩
  rw [display_number_eq n false (by omega) (by omega),
    extractedDigits_reverse_small n.natAbs (by omega)]
  congr 1
  have hl : ((if n < 0 then [HT1621_MINUS] else []) ++ decimalDigits n.natAbs).length
      = (if n < 0 then 1 else 0) + (decimalDigits n.natAbs).length := by
    split
    · simp; omega
    · simp
  have := take_six_append_replicate
    ((if n < 0 then [HT1621_MINUS] else []) ++ decimalDigits n.natAbs) HT1621_BLANK
    (by rw [hl]; exact hlen)
  rw [hl] at this
  simpa using this

/-- C6: for every n with 1000000 <= n <= 2147483647 and either value of
leading_zeros, `ht1621_display_number` shows at positions 0..5 the six-digit
zero-padded decimal representation of n mod 1000000, most-significant first;
every rendered value is a digit 0..9 (no BLANK, no MINUS) without decimal
point.  In particular 1234567 renders 2,3,4,5,6,7. -/
theorem display_number_truncates (m : Nat) (lz : Bool) (h1 : 1000000 ≤ m) (h2 : m ≤ 2147483647) :
    ht1621_display_number (m : Int) lz = atPositions (sixDigits m)
      ∧ (∀ c ∈ ht1621_display_number (m : Int) lz, c.2.1 ≤ 9 ∧ c.2.2 = false)
      ∧ ht1621_display_number 1234567 false = atPositions [2, 3, 4, 5, 6, 7] := by
  have hlen : (sixDigits m).length = 6 := by simp [sixDigits]
  have heq : ht1621_display_number (m : Int) lz = atPositions (sixDigits m) := by
    rw [display_number_eq (m : Int) lz (by omega) (by omega)]
    have hneg : ¬ ((m : Int) < 0) := by omega
    rw [if_neg hneg, Int.natAbs_ofNat, extractedDigits_large m h1, List.nil_append,
      take_six_append_replicate _ _ (by omega), hlen]
    simp
  refine ⟨heq, ?_, by decide⟩
  intro c hc
  rw [heq] at hc
  simp only [atPositions, List.mem_map] at hc
  obtain ⟨x, hx, rfl⟩ := hc
  have hx2 : x.2 ∈ sixDigits m := by
    have := List.mem_map_of_mem Prod.snd hx
    rwa [List.enum, List.enumFrom_map_snd] at this
  simp only [sixDigits, List.mem_map] at hx2
  obtain ⟨p, _, hp⟩ := hx2
  refine ⟨?_, rfl⟩
  show x.2 ≤ 9
  rw [← hp]
  have := Nat.mod_lt (m % 1000000 / 10 ^ (5 - p)) (by norm_num : 10 > 0)
  omega


theorem writes_addresses_of_positions (calls : List DigitCall)
    (h : renderedPositions calls = [0, 1, 2, 3, 4, 5]) :
    (digitCallsWrites calls).map Prod.fst = [0, 1, 2, 3, 4, 5, 6, 7, 8, 9, 10, 11] := by
  have hgen : ∀ cs : List DigitCall, (digitCallsWrites cs).map Prod.fst
      = (renderedPositions cs).flatMap
          (fun p => (ht1621_display_digit p 0 false).map Prod.fst) := by
    intro cs
    induction cs with
    | nil => rfl
    | cons c cs ih =>
      simp only [digitCallsWrites, renderedPositions, List.flatMap_cons, List.map_append,
        List.map_cons] at ih ⊢
      rw [ih]
      congr 1
      unfold ht1621_display_digit
      split <;> rfl
  rw [hgen, h]
  decide

theorem sign_render_fill_positions (neg : Bool) (digits : List Nat) (dp : Nat → Bool)
    (k v : Nat) :
    renderedPositions
      ((if neg = true ∧ 0 < HT1621_MAX_DIGITS then
          (([(0, HT1621_MINUS, false)], 0 + 1) : List DigitCall × Nat) else ([], 0)).1
        ++ (render_loop digits dp k
            (if neg = true ∧ 0 < HT1621_MAX_DIGITS then
              (([(0, HT1621_MINUS, false)], 0 + 1) : List DigitCall × Nat) else ([], 0)).2).1
        ++ fill_loop v HT1621_MAX_DIGITS (render_loop digits dp k
            (if neg = true ∧ 0 < HT1621_MAX_DIGITS then
              (([(0, HT1621_MINUS, false)], 0 + 1) : List DigitCall × Nat) else ([], 0)).2).2)
      = [0, 1, 2, 3, 4, 5] := by
  cases neg
  · have h := render_fill_positions digits dp v k 0 (by omega)
    simpa using h
  · have h := render_fill_positions digits dp v k 1 (by omega)
    have hs : (true = true ∧ 0 < HT1621_MAX_DIGITS) := ⟨rfl, by decide⟩
    rw [if_pos hs]
    simp only [renderedPositions, List.map_append, List.map_cons, List.map_nil,
      List.singleton_append, List.append_assoc, Nat.zero_add, List.cons_append] at h ⊢
    rw [h]
    rfl

theorem display_number_positions (n : Int) (lz : Bool) :
    renderedPositions (ht1621_display_number n lz) = [0, 1, 2, 3, 4, 5] := by
  unfold ht1621_display_number
  cases lz
  · exact sign_render_fill_positions _ _ _ _ _
  · exact sign_render_fill_positions _ _ _ _ _

theorem display_float_positions (neg : Bool) (s d : Nat) :
    renderedPositions (ht1621_display_float neg s d) = [0, 1, 2, 3, 4, 5] := by
  unfold ht1621_display_float
  exact sign_render_fill_positions _ _ _ _ _

theorem display_hex_positions (v : Nat) :
    renderedPositions (ht1621_display_hex v) = [0, 1, 2, 3, 4, 5] := by
  rw [display_hex_eq]
  simp [renderedPositions, List.range, List.range.loop]

/-- C9: every formatter call fills the whole display.  For every int32 other
than INT32_MIN and either flag, for every scaled magnitude, sign and decimals
argument, and for every uint32, the formatter makes exactly six
`ht1621_display_digit` calls, at positions 0,1,2,3,4,5 in that order; these
issue exactly twelve memory writes, to the addresses 0,1,...,11 in increasing
order. -/
theorem formatters_fill_display (n : Int) (lz neg : Bool) (s d v : Nat)
    (hn1 : -2147483647 ≤ n) (hn2 : n ≤ 2147483647) (hs : s ≤ 2147483647)
    (hd : d ≤ 255) (hv : v ≤ 4294967295) :
    (renderedPositions (ht1621_display_number n lz) = [0, 1, 2, 3, 4, 5]
        ∧ (digitCallsWrites (ht1621_display_number n lz)).map Prod.fst
            = [0, 1, 2, 3, 4, 5, 6, 7, 8, 9, 10, 11])
      ∧ (renderedPositions (ht1621_display_float neg s d) = [0, 1, 2, 3, 4, 5]
        ∧ (digitCallsWrites (ht1621_display_float neg s d)).map Prod.fst
            = [0, 1, 2, 3, 4, 5, 6, 7, 8, 9, 10, 11])
      ∧ (renderedPositions (ht1621_display_hex v) = [0, 1, 2, 3, 4, 5]
        ∧ (digitCallsWrites (ht1621_display_hex v)).map Prod.fst
            = [0, 1, 2, 3, 4, 5, 6, 7, 8, 9, 10, 11]) := by
  have _ := hn1; have _ := hn2; have _ := hs; have _ := hd; have _ := hv
  exact ⟨⟨display_number_positions n lz,
      writes_addresses_of_positions _ (display_number_positions n lz)⟩,
    ⟨display_float_positions neg s d,
      writes_addresses_of_positions _ (display_float_positions neg s d)⟩,
    ⟨display_hex_positions v, writes_addresses_of_positions _ (display_hex_positions v)⟩⟩


theorem number_extract_loop_fuel :
    ∀ (fuel extra temp : Nat) (ds : List Nat) (c : Nat), 6 ≤ c + fuel →
      number_extract_loop (fuel + extra) temp ds c = number_extract_loop fuel temp ds c := by
  intro fuel
  induction fuel with
  | zero =>
    intro extra temp ds c h
    cases extra with
    | zero => rfl
    | succ e =>
      have hc : ¬ (temp > 0 ∧ c < HT1621_MAX_DIGITS) := by
        intro hh; have : c < 6 := hh.2; omega
      simp only [Nat.zero_add, number_extract_loop, if_neg hc]
  | succ f ih =>
    intro extra temp ds c h
    have e : f + 1 + extra = (f + extra) + 1 := by omega
    rw [e, number_extract_loop, number_extract_loop]
    split
    · exact ih extra _ _ _ (by omega)
    · rfl

theorem float_extract_loop_fuel (decimals : Nat) :
    ∀ (fuel extra i scaled : Nat) (ds : List Nat) (c : Nat), 6 ≤ i + fuel →
      float_extract_loop decimals (fuel + extra) i scaled ds c
        = float_extract_loop decimals fuel i scaled ds c := by
  intro fuel
  induction fuel with
  | zero =>
    intro extra i scaled ds c h
    cases extra with
    | zero => rfl
    | succ e =>
      have hc : ¬ i < 6 := by omega
      simp only [Nat.zero_add, float_extract_loop, if_neg hc]
  | succ f ih =>
    intro extra i scaled ds c h
    have e : f + 1 + extra = (f + extra) + 1 := by omega
    rw [e, float_extract_loop, float_extract_loop]
    split
    · simp only []
      split
      · rfl
      · exact ih extra _ _ _ _ (by omega)
    · rfl


/-- Witness of `display_number_left_aligned` at n = -42. -/
theorem display_number_left_aligned_witness :
    ((-99999 : Int) ≤ -42 ∧ (-42 : Int) ≤ 999999)
      ∧ ht1621_display_number (-42) false
        = atPositions ((if (-42 : Int) < 0 then [HT1621_MINUS] else [])
            ++ decimalDigits (Int.natAbs (-42))
            ++ List.replicate
                (6 - ((if (-42 : Int) < 0 then 1 else 0)
                  + (decimalDigits (Int.natAbs (-42))).length))
                HT1621_BLANK) :=
  ⟨⟨by decide, by decide⟩,
    (display_number_left_aligned (-42) (by decide) (by decide)).1⟩

/-- Witness of `display_number_truncates` at n = 1234567. -/
theorem display_number_truncates_witness :
    (1000000 ≤ 1234567 ∧ 1234567 ≤ 2147483647)
      ∧ ht1621_display_number ((1234567 : Nat) : Int) false = atPositions (sixDigits 1234567) :=
  ⟨⟨by decide, by decide⟩,
    (display_number_truncates 1234567 false (by decide) (by decide)).1⟩

/-- Witness of `formatters_fill_display` at display_number(-42, false),
display_float(-98.765, 1) and display_hex(0x42). -/
theorem formatters_fill_display_witness :
    (renderedPositions (ht1621_display_number (-42) false) = [0, 1, 2, 3, 4, 5]
        ∧ (digitCallsWrites (ht1621_display_number (-42) false)).map Prod.fst
            = [0, 1, 2, 3, 4, 5, 6, 7, 8, 9, 10, 11])
      ∧ (renderedPositions (ht1621_display_float true 98765 1) = [0, 1, 2, 3, 4, 5]
        ∧ (digitCallsWrites (ht1621_display_float true 98765 1)).map Prod.fst
            = [0, 1, 2, 3, 4, 5, 6, 7, 8, 9, 10, 11])
      ∧ (renderedPositions (ht1621_display_hex 0x42) = [0, 1, 2, 3, 4, 5]
        ∧ (digitCallsWrites (ht1621_display_hex 0x42)).map Prod.fst
            = [0, 1, 2, 3, 4, 5, 6, 7, 8, 9, 10, 11]) :=
  formatters_fill_display (-42) false true 98765 1 0x42
    (by decide) (by decide) (by decide) (by decide) (by decide)

/-! ### Out-of-range digits, bit cells, clearing and initialization -/


/-- C11: for every position from 6 to 255, every digit value and every
decimal-point flag, `ht1621_display_digit` issues no memory write and hence no
pin event; and whatever its arguments, `ht1621_display_digit` never writes an
address greater than 11. -/
theorem display_digit_out_of_range (p d : Nat) (dp : Bool) (hp : 6 ≤ p) (hp8 : p ≤ 255) :
    ht1621_display_digit p d dp = []
      ∧ writesTrace (ht1621_display_digit p d dp) = []
      ∧ (∀ (q e : Nat) (f : Bool), ∀ w ∈ ht1621_display_digit q e f, w.1 ≤ 11) := by
  have _ := hp8
  have h0 : ht1621_display_digit p d dp = [] := by
    unfold ht1621_display_digit
    rw [if_pos (show p ≥ HT1621_MAX_DIGITS from hp)]
  refine ⟨h0, by rw [h0]; rfl, ?_⟩
  intro q e f w hw
  unfold ht1621_display_digit at hw
  by_cases hq : q ≥ HT1621_MAX_DIGITS
  · rw [if_pos hq] at hw; simp at hw
  · rw [if_neg hq] at hw
    have hq6 : q < 6 := by simpa [HT1621_MAX_DIGITS] using hq
    simp only [List.mem_cons, List.mem_singleton, List.not_mem_nil, or_false] at hw
    rcases hw with rfl | rfl <;> simp only <;> omega

/-- C12: for every position p in 0..5, every decimal-point flag and every
digit value d with 16 <= d <= 253, `ht1621_display_digit(p, d, dp)` issues
exactly the two memory writes of `ht1621_display_digit(p, HT1621_BLANK, dp)`:
nibble 0 to address 2*p, then to address 2*p+1 the nibble 8 when dp is true
and 0 otherwise (all seven segments off). -/
theorem display_digit_unrecognized_blank (p d : Nat) (dp : Bool) (hp : p < 6) (hd1 : 16 ≤ d) (hd2 : d ≤ 253) :
    ht1621_display_digit p d dp = ht1621_display_digit p HT1621_BLANK dp
      ∧ ht1621_display_digit p d dp = [(2 * p, 0), (2 * p + 1, if dp = true then 8 else 0)] := by
  have hseg : display_digit_segments d dp = display_digit_segments HT1621_BLANK dp := by
    unfold display_digit_segments
    have h1 : ¬ d ≤ 9 := by omega
    have h2 : ¬ (d ≥ 0x0A ∧ d ≤ 0x0F) := by omega
    have h3 : ¬ d = HT1621_BLANK := by simp [HT1621_BLANK]; omega
    have h4 : ¬ d = HT1621_MINUS := by simp [HT1621_MINUS]; omega
    simp only [if_neg h1, if_neg h2, if_neg h3, if_neg h4]
    simp [HT1621_BLANK, SEG_BLANK]
  have hb : ht1621_display_digit p HT1621_BLANK dp
      = [(2 * p, 0), (2 * p + 1, if dp = true then 8 else 0)] := by
    revert p
    cases dp <;> decide
  have he : ht1621_display_digit p d dp = ht1621_display_digit p HT1621_BLANK dp := by
    unfold ht1621_display_digit
    rw [hseg]
  exact ⟨he, he.trans hb⟩

/-- C13: evaluation of `ht1621_display_number(-123456, false)`.  The minus
sign takes position 0 and only five positions remain: the display shows
MINUS,1,2,3,4,5 and the units digit 6 is not rendered, although the header
documents the range -999999 to 999999. -/
theorem display_number_negative_six_digits :
    ht1621_display_number (-123456) false
        = atPositions [HT1621_MINUS, 1, 2, 3, 4, 5]
      ∧ 6 ∉ renderedDigits (ht1621_display_number (-123456) false) := by
  decide

theorem write_bits_loop_eq (v bits : Nat) :
    ∀ (fuel i : Nat), i + fuel = bits →
      write_bits_loop v bits fuel i
        = (List.range' i fuel).flatMap (fun j => bitCell (bitOf v (bits - 1 - j))) := by
  intro fuel
  induction fuel with
  | zero => intro i _; rfl
  | succ f ih =>
    intro i h
    have hi : i < bits := by omega
    rw [write_bits_loop, if_pos hi, data_level_eq, ih (i + 1) (by omega)]
    simp [List.range'_succ, bitCell, HT1621_DELAY_US]

/-- C14: for every 8-bit value and every bit_count in 0..8, the pin-event
trace of `ht1621_write_bits(value, bit_count)` is the concatenation, for
k = bit_count-1 down to 0, of the bit cell [WR := 0, delay 2us, DATA := bit k
of value, delay 2us, WR := 1, delay 2us]; it has 6*bit_count events, never
drives CS, and is empty for bit_count = 0. -/
theorem write_bits_trace (value bit_count : Nat) (hv : value ≤ 255) (hb : bit_count ≤ 8) :
    ht1621_write_bits value bit_count
        = (List.range bit_count).flatMap
            (fun j => bitCell (bitOf value (bit_count - 1 - j)))
      ∧ (ht1621_write_bits value bit_count).length = 6 * bit_count
      ∧ (∀ e ∈ ht1621_write_bits value bit_count, ∀ l, e ≠ Event.set Pin.CS l)
      ∧ ht1621_write_bits value 0 = [] := by
  have _ := hv
  have _ := hb
  have he : ht1621_write_bits value bit_count
      = (List.range bit_count).flatMap
          (fun j => bitCell (bitOf value (bit_count - 1 - j))) := by
    rw [ht1621_write_bits, write_bits_loop_eq value bit_count bit_count 0 (by omega),
      List.range_eq_range']
  refine ⟨he, ?_, ?_, rfl⟩
  · rw [he, List.length_flatMap]
    have hc : (List.length ∘ fun j => bitCell (bitOf value (bit_count - 1 - j)))
        = fun _ => 6 := by
      funext j; rfl
    rw [hc]
    simp
    omega
  · intro e he2 l hl
    rw [he] at he2
    simp only [List.mem_flatMap, bitCell] at he2
    obtain ⟨j, _, hj⟩ := he2
    subst hl
    simp at hj


theorem clear_eq : ht1621_clear = (List.range 32).map (fun i => (i, 0)) := by
  decide

theorem memRun_cons (m : Memory) (w : WriteCall) (ws : List WriteCall) :
    memRun m (w :: ws) = memRun (memWrite m w) ws := rfl

theorem memRun_append (m : Memory) (ws vs : List WriteCall) :
    memRun m (ws ++ vs) = memRun (memRun m ws) vs := by
  simp [memRun, List.foldl_append]

theorem memRun_apply (ws : List WriteCall) :
    ∀ (m : Memory) (a : Nat),
      memRun m ws a
        = match ws.reverse.find? (fun w => decide (a < 32 ∧ a = w.1 % 64)) with
          | some w => w.2 % 16
          | none => m a := by
  induction ws using List.reverseRecOn with
  | nil => intro m a; rfl
  | append_singleton ws w ih =>
    intro m a
    rw [memRun_append, List.reverse_append]
    simp only [List.reverse_cons, List.reverse_nil, List.nil_append, List.singleton_append,
      List.find?_cons]
    show memWrite (memRun m ws) w a = _
    unfold memWrite
    by_cases h : a < 32 ∧ a = w.1 % 64
    · rw [if_pos h, decide_eq_true h]
    · rw [if_neg h, decide_eq_false h]
      exact ih m a

/-- C15: `ht1621_clear()` issues exactly 32 memory writes, to the addresses
0,1,...,31 in increasing order, each with data nibble 0; run on any
controller memory, it leaves 0 in every one of the 32 cells. -/
theorem clear_zeroes_memory (m : Memory) (a : Nat) (ha : a < 32) :
    ht1621_clear = (List.range 32).map (fun i => (i, 0))
      ∧ ht1621_clear.length = 32
      ∧ memRun m ht1621_clear a = 0 := by
  refine ⟨clear_eq, by decide, ?_⟩
  rw [memRun_apply]
  have h : ∀ b < 32, ∃ w, ht1621_clear.reverse.find?
      (fun w => decide (b < 32 ∧ b = w.1 % 64)) = some w ∧ w.2 % 16 = 0 := by
    decide
  obtain ⟨w, hw, h0⟩ := h a ha
  rw [hw]
  exact h0


theorem isFrame_send_command (cmd : Nat) : isFrame (ht1621_send_command cmd) := by
  refine ⟨ht1621_write_bits 0x80 4 ++ ht1621_write_bits cmd 8, ?_, ?_⟩
  · simp [ht1621_send_command]
  · rw [csEvents_append, csEvents_write_bits, csEvents_write_bits]; rfl

/-- C16: when all three signal lines are ready and each configuration call
succeeds, `ht1621_init_with_config(b)` returns 0 and its trace is CS, WR and
DATA driven high, a 100 ms delay, then the four command frames of b, 0x18,
0x01 and 0x03 in that order and nothing else; `ht1621_init()` is
`ht1621_init_with_config(0x29)`. -/
theorem init_success_trace (ENODEV : Int) (io : GpioStatus) (b : Nat) (hb : b ≤ 255)
    (hr : io.cs_ready = true ∧ io.wr_ready = true ∧ io.data_ready = true)
    (hc : 0 ≤ io.cs_configure ∧ 0 ≤ io.wr_configure ∧ 0 ≤ io.data_configure) :
    ht1621_init_with_config ENODEV io b
        = (0, [Event.set Pin.CS 1, Event.set Pin.WR 1, Event.set Pin.DATA 1, Event.msleep 100]
            ++ ht1621_send_command b ++ ht1621_send_command 0x18
            ++ ht1621_send_command 0x01 ++ ht1621_send_command 0x03)
      ∧ (∀ cmd ∈ [b, 0x18, 0x01, 0x03], isFrame (ht1621_send_command cmd))
      ∧ ht1621_init ENODEV io = ht1621_init_with_config ENODEV io 0x29 := by
  obtain ⟨r1, r2, r3⟩ := hr
  obtain ⟨c1, c2, c3⟩ := hc
  refine ⟨?_, fun cmd _ => isFrame_send_command cmd, rfl⟩
  unfold ht1621_init_with_config
  have hb2 : b % 256 = b := by omega
  rw [r1, r2, r3, hb2]
  simp [not_lt.2 c1, not_lt.2 c2, not_lt.2 c3, HT1621_CMD_RC_256K, HT1621_CMD_SYS_EN,
    HT1621_CMD_LCD_ON]

/-- C17, as stated, fails: with all lines ready and the first configuration
call answering -22 (with ENODEV = 19), the return value is -22, not
-ENODEV. -/
theorem init_configure_error_is_propagated :
    ¬ ((ht1621_init_with_config 19 ⟨true, true, true, -22, 0, 0⟩ 0x29).1 = -19) := by
  decide

/-- C17, amended: if any of the three signal lines is not ready,
`ht1621_init_with_config` returns -ENODEV; if a line cannot be configured it
returns the negative code of the first failing configuration call; in both
cases the trace is empty, so no level is driven and no command is sent; and
it returns 0 only if all three lines were ready and configured. -/
theorem init_failure_aborts (ENODEV : Int) (io : GpioStatus) (b : Nat) (hE : 0 < ENODEV) :
    ((io.cs_ready = false ∨ io.wr_ready = false ∨ io.data_ready = false) →
        ht1621_init_with_config ENODEV io b = (-ENODEV, []))
      ∧ ((io.cs_configure < 0 ∨ io.wr_configure < 0 ∨ io.data_configure < 0) →
          (ht1621_init_with_config ENODEV io b).1 < 0
            ∧ (ht1621_init_with_config ENODEV io b).2 = [])
      ∧ ((io.cs_ready = true ∧ io.wr_ready = true ∧ io.data_ready = true) →
          (io.cs_configure < 0 →
            ht1621_init_with_config ENODEV io b = (io.cs_configure, []))
          ∧ (0 ≤ io.cs_configure → io.wr_configure < 0 →
            ht1621_init_with_config ENODEV io b = (io.wr_configure, []))
          ∧ (0 ≤ io.cs_configure → 0 ≤ io.wr_configure → io.data_configure < 0 →
            ht1621_init_with_config ENODEV io b = (io.data_configure, [])))
      ∧ ((ht1621_init_with_config ENODEV io b).1 = 0 →
          (io.cs_ready = true ∧ io.wr_ready = true ∧ io.data_ready = true)
            ∧ (0 ≤ io.cs_configure ∧ 0 ≤ io.wr_configure ∧ 0 ≤ io.data_configure)) := by
  rcases io with ⟨r1, r2, r3, c1, c2, c3⟩
  unfold ht1621_init_with_config
  simp only
  cases r1 <;> cases r2 <;> cases r3 <;>
    by_cases h1 : c1 < 0 <;> by_cases h2 : c2 < 0 <;> by_cases h3 : c3 < 0 <;>
    simp [h1, h2, h3] <;> omega


theorem display_number_blank_filled (n : Int) (h1 : -99999 ≤ n) (h2 : n ≤ 999999) :
    ht1621_display_number n false
        = atPositions ((if n < 0 then [HT1621_MINUS] else [])
            ++ decimalDigits n.natAbs
            ++ List.replicate
                (6 - ((if n < 0 then 1 else 0) + (decimalDigits n.natAbs).length))
                HT1621_BLANK) := by
  have hlen : (if n < 0 then 1 else 0) + (decimalDigits n.natAbs).length ≤ 6 := by
    by_cases hneg : n < 0
    · have := decimalDigits_length_le n.natAbs 5 (by norm_num) (by norm_num; omega)
      rw [if_pos hneg]; omega
    · have := decimalDigits_length_le n.natAbs 6 (by norm_num) (by norm_num; omega)
      rw [if_neg hneg]; omega
  rw [display_number_eq n false (by omega) (by omega),
    extractedDigits_reverse_small n.natAbs (by omega)]
  congr 1
  have hl : ((if n < 0 then [HT1621_MINUS] else []) ++ decimalDigits n.natAbs).length
      = (if n < 0 then 1 else 0) + (decimalDigits n.natAbs).length := by
    split
    · simp; omega
    · simp
  have := take_six_append_replicate
    ((if n < 0 then [HT1621_MINUS] else []) ++ decimalDigits n.natAbs) HT1621_BLANK
    (by rw [hl]; exact hlen)
  rw [hl] at this
  simpa using this

/-- C18, as stated, fails: `ht1621_display_number(42, false)` does not render
BLANK,BLANK,BLANK,BLANK,4,2. -/
theorem display_number_not_right_aligned :
    ht1621_display_number 42 false
      ≠ atPositions [HT1621_BLANK, HT1621_BLANK, HT1621_BLANK, HT1621_BLANK, 4, 2] := by
  decide

/-- C18, amended: with leading_zeros = false the trailing positions are
blanked.  For every n with 0 <= n <= 999999, `ht1621_display_number(n, false)`
left-aligns the number: the decimal digits of n without leading zeros start at
position 0, most-significant first, and HT1621_BLANK fills every position
after the units digit; 42 renders 4,2,BLANK,BLANK,BLANK,BLANK. -/
theorem display_number_nonneg_left_aligned (n : Nat) (h : n ≤ 999999) :
    ht1621_display_number (n : Int) false
        = atPositions (decimalDigits n
            ++ List.replicate (6 - (decimalDigits n).length) HT1621_BLANK)
      ∧ (decimalDigits n).length ≤ 6
      ∧ ht1621_display_number 42 false
        = atPositions [4, 2, HT1621_BLANK, HT1621_BLANK, HT1621_BLANK, HT1621_BLANK] := by
  refine ⟨?_, decimalDigits_length_le n 6 (by norm_num) (by norm_num; omega), by decide⟩
  have hneg : ¬ ((n : Int) < 0) := by omega
  have := display_number_blank_filled (n : Int) (by omega) (by omega)
  simpa [hneg] using this

theorem memRun_unaddressed (ws : List WriteCall) (m : Memory) (a : Nat)
    (h : ∀ w ∈ ws, ¬ (a < 32 ∧ a = w.1 % 64)) : memRun m ws a = m a := by
  rw [memRun_apply]
  have : ws.reverse.find? (fun w => decide (a < 32 ∧ a = w.1 % 64)) = none := by
    rw [List.find?_eq_none]
    intro w hw
    simpa using h w (List.mem_reverse.1 hw)
  rw [this]

theorem memRun_addressed (ws : List WriteCall) (m m2 : Memory) (a : Nat)
    (h : ∃ w ∈ ws, a < 32 ∧ a = w.1 % 64) : memRun m ws a = memRun m2 ws a := by
  rw [memRun_apply, memRun_apply]
  cases hf : ws.reverse.find? (fun w => decide (a < 32 ∧ a = w.1 % 64)) with
  | some w => rfl
  | none =>
    exfalso
    rw [List.find?_eq_none] at hf
    obtain ⟨w, hw, hw2⟩ := h
    have := hf w (List.mem_reverse.2 hw)
    simp only [decide_eq_true_eq] at this
    exact this hw2

theorem rendersAfresh_of_addresses (m : Memory) (ws : List WriteCall)
    (h : ws.map Prod.fst = [0, 1, 2, 3, 4, 5, 6, 7, 8, 9, 10, 11]) :
    rendersAfresh m ws := by
  have hin : ∀ w ∈ ws, w.1 < 12 := by
    intro w hw
    have : w.1 ∈ ws.map Prod.fst := List.mem_map_of_mem Prod.fst hw
    rw [h] at this
    simp at this
    omega
  have hlow : ∀ a, a < 12 → ∃ w ∈ ws, a < 32 ∧ a = w.1 % 64 := by
    intro a ha
    have : a ∈ ws.map Prod.fst := by
      rw [h]; interval_cases a <;> simp
    obtain ⟨w, hw, rfl⟩ := List.mem_map.1 this
    exact ⟨w, hw, by omega, by omega⟩
  have hhigh : ∀ a, 12 ≤ a → ∀ w ∈ ws, ¬ (a < 32 ∧ a = w.1 % 64) := by
    intro a ha w hw hc
    have := hin w hw
    omega
  refine ⟨?_, ?_, ?_, ?_⟩
  · intro a
    by_cases ha : a < 12
    · exact memRun_addressed ws _ _ a (hlow a ha)
    · rw [memRun_unaddressed ws _ a (hhigh a (by omega))]
  · intro a ha
    exact memRun_addressed ws _ _ a (hlow a ha)
  · intro a ha
    exact memRun_unaddressed ws m a (hhigh a ha)
  · intro m2 a ha
    exact memRun_addressed ws _ _ a (hlow a ha)

/-- C19: rendering is idempotent on the controller memory.  For every
formatter call (the write sequence is a function of the arguments alone) and
every initial memory m, running the writes twice leaves the same memory as
running them once, cells 0..11 equal those obtained by rendering after
`ht1621_clear` (and do not depend on m at all), and every cell from 12 on is
left unchanged. -/
theorem formatters_render_afresh (m : Memory) (n : Int) (lz neg : Bool) (s d v : Nat)
    (hn1 : -2147483648 ≤ n) (hn2 : n ≤ 2147483647) (hs : s ≤ 2147483647)
    (hd : d ≤ 255) (hv : v ≤ 4294967295) :
    rendersAfresh m (digitCallsWrites (ht1621_display_number n lz))
      ∧ rendersAfresh m (digitCallsWrites (ht1621_display_float neg s d))
      ∧ rendersAfresh m (digitCallsWrites (ht1621_display_hex v)) := by
  have _ := hn1; have _ := hn2; have _ := hs; have _ := hd; have _ := hv
  exact ⟨rendersAfresh_of_addresses m _
      (writes_addresses_of_positions _ (display_number_positions n lz)),
    rendersAfresh_of_addresses m _
      (writes_addresses_of_positions _ (display_float_positions neg s d)),
    rendersAfresh_of_addresses m _
      (writes_addresses_of_positions _ (display_hex_positions v))⟩

/-- C20: with leading_zeros = true, for every n with -2147483647 <= n <=
2147483647, the integer formatter renders MINUS when n < 0, then the extracted
digits of |n| most-significant first, then digit 0 in every remaining
position, cut off after six positions.  The extracted digits are the decimal
digits of |n| mod 1000000 without leading zeros when |n| < 1000000 (a single
0 for n = 0) and the six low-order digits otherwise.  So 7 renders
7,0,0,0,0,0 and -42 renders MINUS,4,2,0,0,0. -/
theorem display_number_trailing_zeros (n : Int) (h1 : -2147483647 ≤ n) (h2 : n ≤ 2147483647) :
    ht1621_display_number n true
        = atPositions (((if n < 0 then [HT1621_MINUS] else [])
            ++ (extractedDigits n.natAbs).reverse
            ++ List.replicate 6 0).take 6)
      ∧ (n.natAbs < 1000000 →
          (extractedDigits n.natAbs).reverse = decimalDigits (n.natAbs % 1000000))
      ∧ (1000000 ≤ n.natAbs → (extractedDigits n.natAbs).reverse = sixDigits n.natAbs)
      ∧ ht1621_display_number 7 true = atPositions [7, 0, 0, 0, 0, 0]
      ∧ ht1621_display_number (-42) true = atPositions [HT1621_MINUS, 4, 2, 0, 0, 0] := by
  refine ⟨?_, ?_, extractedDigits_large _, by decide, by decide⟩
  · have := display_number_eq n true (by omega) h2
    simpa using this
  · intro hlt
    rw [Nat.mod_eq_of_lt hlt]
    exact extractedDigits_reverse_small _ hlt


/-- Witness of `display_digit_out_of_range` at position 6. -/
theorem display_digit_out_of_range_witness :
    (6 ≤ 6 ∧ 6 ≤ 255) ∧ ht1621_display_digit 6 8 true = [] :=
  ⟨⟨by decide, by decide⟩, (display_digit_out_of_range 6 8 true (by decide) (by decide)).1⟩

/-- Witness of `display_digit_unrecognized_blank` at digit value 100. -/
theorem display_digit_unrecognized_blank_witness :
    (3 < 6 ∧ 16 ≤ 100 ∧ 100 ≤ 253)
      ∧ ht1621_display_digit 3 100 true = ht1621_display_digit 3 HT1621_BLANK true :=
  ⟨⟨by decide, by decide, by decide⟩,
    (display_digit_unrecognized_blank 3 100 true (by decide) (by decide) (by decide)).1⟩

/-- Witness of `write_bits_trace` at value 0x29 with 8 bits. -/
theorem write_bits_trace_witness :
    (0x29 ≤ 255 ∧ 8 ≤ 8)
      ∧ ht1621_write_bits 0x29 8
        = (List.range 8).flatMap (fun j => bitCell (bitOf 0x29 (8 - 1 - j))) :=
  ⟨⟨by decide, by decide⟩, (write_bits_trace 0x29 8 (by decide) (by decide)).1⟩

/-- Witness of `clear_zeroes_memory` at cell 5 of a memory holding 7
everywhere. -/
theorem clear_zeroes_memory_witness :
    5 < 32 ∧ memRun (fun _ => 7) ht1621_clear 5 = 0 :=
  ⟨by decide, (clear_zeroes_memory (fun _ => 7) 5 (by decide)).2.2⟩

/-- Witness of `init_success_trace` with the default configuration byte. -/
theorem init_success_trace_witness :
    (ht1621_init_with_config 19 ⟨true, true, true, 0, 0, 0⟩ 0x29).1 = 0 :=
  congrArg Prod.fst
    (init_success_trace 19 ⟨true, true, true, 0, 0, 0⟩ 0x29 (by decide)
      ⟨rfl, rfl, rfl⟩ ⟨by decide, by decide, by decide⟩).1

/-- Witness of `init_failure_aborts`: the WR line is not ready. -/
theorem init_failure_aborts_witness :
    (0 : Int) < 19
      ∧ ht1621_init_with_config 19 ⟨true, false, true, 0, 0, 0⟩ 0x29 = (-19, []) :=
  ⟨by decide,
    (init_failure_aborts 19 ⟨true, false, true, 0, 0, 0⟩ 0x29 (by decide)).1
      (Or.inr (Or.inl rfl))⟩

/-- Witness of `display_number_nonneg_left_aligned` at n = 42. -/
theorem display_number_nonneg_left_aligned_witness :
    42 ≤ 999999
      ∧ ht1621_display_number ((42 : Nat) : Int) false
        = atPositions (decimalDigits 42
            ++ List.replicate (6 - (decimalDigits 42).length) HT1621_BLANK) :=
  ⟨by decide, (display_number_nonneg_left_aligned 42 (by decide)).1⟩

/-- Witness of `formatters_render_afresh` at display_number(-42, false),
display_float(-98.765, 1) and display_hex(0x42), on a memory holding 7
everywhere. -/
theorem formatters_render_afresh_witness :
    rendersAfresh (fun _ => 7) (digitCallsWrites (ht1621_display_number (-42) false))
      ∧ rendersAfresh (fun _ => 7) (digitCallsWrites (ht1621_display_float true 98765 1))
      ∧ rendersAfresh (fun _ => 7) (digitCallsWrites (ht1621_display_hex 0x42)) :=
  formatters_render_afresh (fun _ => 7) (-42) false true 98765 1 0x42
    (by decide) (by decide) (by decide) (by decide) (by decide)

/-- Witness of `display_number_trailing_zeros` at n = -42. -/
theorem display_number_trailing_zeros_witness :
    ((-2147483647 : Int) ≤ -42 ∧ (-42 : Int) ≤ 2147483647)
      ∧ ht1621_display_number (-42) true
        = atPositions (((if (-42 : Int) < 0 then [HT1621_MINUS] else [])
            ++ (extractedDigits (Int.natAbs (-42))).reverse
            ++ List.replicate 6 0).take 6) :=
  ⟨⟨by decide, by decide⟩, (display_number_trailing_zeros (-42) (by decide) (by decide)).1⟩

/-! ### Float extraction, sign truncation and chip-select framing -/


/-- C23: `ht1621_display_float` clamps decimals to at most 3.  For every
value (scaled magnitude and sign) and every decimals d with 4 <= d <= 255, the
calls and the memory writes of display_float(value, d) are those of
display_float(value, 3). -/
theorem display_float_clamps_decimals (neg : Bool) (s d : Nat) (hs : s ≤ 2147483647) (h1 : 4 ≤ d) (h2 : d ≤ 255) :
    ht1621_display_float neg s d = ht1621_display_float neg s 3
      ∧ digitCallsWrites (ht1621_display_float neg s d)
          = digitCallsWrites (ht1621_display_float neg s 3) := by
  have _ := hs
  have _ := h2
  have he : ht1621_display_float neg s d = ht1621_display_float neg s 3 := by
    unfold ht1621_display_float
    have hd : d > 3 := by omega
    simp only [if_pos hd]
    rfl
  exact ⟨he, by rw [he]⟩

theorem extractedDigits_six (m : Nat) (h : 100000 ≤ m) :
    (extractedDigits m).reverse = sixDigits m := by
  have d0 : Nat.digits 10 m = (m % 10) :: Nat.digits 10 (m / 10) :=
    Nat.digits_def' (by norm_num) (by omega)
  have d1 : Nat.digits 10 (m / 10) = (m / 10 % 10) :: Nat.digits 10 (m / 10 / 10) :=
    Nat.digits_def' (by norm_num) (by omega)
  have d2 : Nat.digits 10 (m / 10 / 10)
      = (m / 10 / 10 % 10) :: Nat.digits 10 (m / 10 / 10 / 10) :=
    Nat.digits_def' (by norm_num) (by omega)
  have d3 : Nat.digits 10 (m / 10 / 10 / 10)
      = (m / 10 / 10 / 10 % 10) :: Nat.digits 10 (m / 10 / 10 / 10 / 10) :=
    Nat.digits_def' (by norm_num) (by omega)
  have d4 : Nat.digits 10 (m / 10 / 10 / 10 / 10)
      = (m / 10 / 10 / 10 / 10 % 10) :: Nat.digits 10 (m / 10 / 10 / 10 / 10 / 10) :=
    Nat.digits_def' (by norm_num) (by omega)
  have d5 : Nat.digits 10 (m / 10 / 10 / 10 / 10 / 10)
      = (m / 10 / 10 / 10 / 10 / 10 % 10)
          :: Nat.digits 10 (m / 10 / 10 / 10 / 10 / 10 / 10) :=
    Nat.digits_def' (by norm_num) (by omega)
  have hm : m ≠ 0 := by omega
  unfold extractedDigits sixDigits
  rw [if_neg hm, d0, d1, d2, d3, d4, d5]
  simp only [List.take_succ_cons, List.take_zero, List.reverse_cons, List.reverse_nil,
    List.nil_append, List.cons_append, List.range, List.range.loop, List.map_cons, List.map_nil]
  norm_num
  omega

theorem sixDigits_split (m : Nat) : sixDigits m = (sixDigits m).take 5 ++ [m % 10] := by
  simp only [sixDigits, List.range, List.range.loop, List.map_cons, List.map_nil,
    List.take_succ_cons, List.take_zero, List.cons_append, List.nil_append]
  norm_num

/-- C24: a minus sign costs the least-significant digit.  For every n with
-2147483647 <= n <= -100000 and either value of leading_zeros,
`ht1621_display_number` renders MINUS at position 0 and, at positions 1..5,
the five most-significant digits of the six-digit zero-padded representation
of |n| mod 1000000; the sixth digit, the units digit of |n|, has no position
left.  In particular -123456 renders MINUS,1,2,3,4,5. -/
theorem display_number_minus_costs_digit (n : Int) (lz : Bool) (h1 : -2147483647 ≤ n) (h2 : n ≤ -100000) :
    ht1621_display_number n lz = atPositions (HT1621_MINUS :: (sixDigits n.natAbs).take 5)
      ∧ sixDigits n.natAbs = (sixDigits n.natAbs).take 5 ++ [n.natAbs % 10]
      ∧ (ht1621_display_number n lz).length = 6
      ∧ ht1621_display_number (-123456) false = atPositions [HT1621_MINUS, 1, 2, 3, 4, 5]
      ∧ ht1621_display_number (-123456) true = atPositions [HT1621_MINUS, 1, 2, 3, 4, 5] := by
  have hlen : (sixDigits n.natAbs).length = 6 := by simp [sixDigits]
  have he : ht1621_display_number n lz
      = atPositions (HT1621_MINUS :: (sixDigits n.natAbs).take 5) := by
    rw [display_number_eq n lz (by omega) (by omega)]
    have hneg : n < 0 := by omega
    rw [if_pos hneg, extractedDigits_six n.natAbs (by omega)]
    rfl
  refine ⟨he, sixDigits_split _, ?_, by decide, by decide⟩
  rw [he]
  simp [atPositions, hlen]

/-- C25: with the negation taken modulo 2^32,
`ht1621_display_number(INT32_MIN, false)` makes exactly six digit renders and
shows MINUS,4,8,3,6,4: the magnitude is the unsigned value 2147483648, the
extraction stops after its six low digits 8,4,6,3,8,4 (least-significant
first), and the sign leaves no position for the last of them. -/
theorem display_number_int32_min :
    ht1621_display_number (-2147483648) false
        = atPositions [HT1621_MINUS, 4, 8, 3, 6, 4]
      ∧ (ht1621_display_number (-2147483648) false).length = 6
      ∧ (wrap_int32 (-(-2147483648)) % 4294967296).toNat = 2147483648
      ∧ number_extract_loop HT1621_MAX_DIGITS 2147483648
          (List.replicate HT1621_MAX_DIGITS 0) 0 = ([8, 4, 6, 3, 8, 4], 6) := by
  decide


theorem framedRun_bitCell (wr b : Nat) (rest : List Event) :
    framedRun (0, wr) (bitCell b ++ rest) = framedRun (0, 1) rest := by
  simp [bitCell, framedRun]

theorem framedRun_write_bits (v bits wr : Nat) (rest : List Event) (hb : 0 < bits) :
    framedRun (0, wr) (ht1621_write_bits v bits ++ rest) = framedRun (0, 1) rest := by
  have hgen : ∀ (l : List Nat) (f : Nat → Nat) (w : Nat), l ≠ [] →
      framedRun (0, w) (l.flatMap (fun j => bitCell (f j)) ++ rest)
        = framedRun (0, 1) rest := by
    intro l
    induction l with
    | nil => intro f w h; exact absurd rfl h
    | cons a l ih =>
      intro f w _
      rw [List.flatMap_cons, List.append_assoc, framedRun_bitCell]
      cases l with
      | nil => simp
      | cons c l2 => exact ih f 1 (by simp)
  rw [ht1621_write_bits, write_bits_loop_eq v bits bits 0 (by omega)]
  apply hgen
  cases bits with
  | zero => omega
  | succ n => simp [List.range'_succ]

theorem framedRun_write_data (addr data : Nat) (rest : List Event) :
    framedRun (1, 1) (ht1621_write_data addr data ++ rest) = framedRun (1, 1) rest := by
  unfold ht1621_write_data
  simp only [List.append_assoc, List.cons_append, List.nil_append]
  rw [framedRun]
  simp only [if_true, ne_eq, one_ne_zero, not_false_eq_true]
  rw [framedRun, framedRun_write_bits _ _ _ _ (by norm_num),
    framedRun_write_bits _ _ _ _ (by norm_num), framedRun_write_bits _ _ _ _ (by norm_num)]
  simp [framedRun]

theorem framedRun_send_command (cmd : Nat) (rest : List Event) :
    framedRun (1, 1) (ht1621_send_command cmd ++ rest) = framedRun (1, 1) rest := by
  unfold ht1621_send_command
  simp only [List.append_assoc, List.cons_append, List.nil_append]
  rw [framedRun]
  simp only [if_true, ne_eq, one_ne_zero, not_false_eq_true]
  rw [framedRun, framedRun_write_bits _ _ _ _ (by norm_num),
    framedRun_write_bits _ _ _ _ (by norm_num)]
  simp [framedRun]

theorem isFrame_write_data (addr data : Nat) : isFrame (ht1621_write_data addr data) := by
  refine ⟨ht1621_write_bits 0xA0 3 ++ ht1621_write_bits addr 6 ++ ht1621_write_bits data 4,
    ?_, ?_⟩
  · simp [ht1621_write_data]
  · rw [csEvents_append, csEvents_append, csEvents_write_bits, csEvents_write_bits,
      csEvents_write_bits]; rfl

theorem framedRun_callsTrace (calls : List FrameCall) :
    framedRun (1, 1) (callsTrace calls) = some (1, 1) := by
  induction calls with
  | nil => rfl
  | cons c cs ih =>
    rw [callsTrace, List.flatMap_cons]
    cases c with
    | write_data a d => exact (framedRun_write_data a d _).trans ih
    | send_command x => exact (framedRun_send_command x _).trans ih

theorem writesTrace_eq_callsTrace (ws : List WriteCall) :
    writesTrace ws = callsTrace (ws.map (fun w => FrameCall.write_data w.1 w.2)) := by
  simp [writesTrace, callsTrace, List.flatMap_map, frameCallTrace]

/-- C26: chip-select framing.  Starting from the idle state (CS high, WR
high), the checked run of the trace of any finite sequence of
`ht1621_write_data` and `ht1621_send_command` calls succeeds and ends idle:
WR and DATA are never driven while CS is high, CS is only ever driven to the
opposite level, and WR is high whenever CS goes high; each call emits one
frame (CS low first, CS high last, CS untouched in between).  The same holds
for the trace of any sequence of memory writes, hence for clear,
display_digit and the formatters. -/
theorem chip_select_framing (calls : List FrameCall) (ws : List WriteCall) :
    framedRun (1, 1) (callsTrace calls) = some (1, 1)
      ∧ (∀ c ∈ calls, isFrame (frameCallTrace c))
      ∧ framedRun (1, 1) (writesTrace ws) = some (1, 1) := by
  refine ⟨framedRun_callsTrace calls, ?_, ?_⟩
  · intro c _
    cases c with
    | write_data a d => exact isFrame_write_data a d
    | send_command x => exact isFrame_send_command x
  · rw [writesTrace_eq_callsTrace]
    exact framedRun_callsTrace _


theorem digits_length_le_iff (m k : Nat) : (Nat.digits 10 m).length ≤ k ↔ m < 10 ^ k := by
  constructor
  · intro h
    have h1 : m < 10 ^ (Nat.digits 10 m).length := Nat.lt_base_pow_length_digits (by norm_num)
    exact lt_of_lt_of_le h1 (Nat.pow_le_pow_right (by norm_num) h)
  · exact digits_length_le m k

theorem digits_length_step (s : Nat) :
    (Nat.digits 10 s).length
      = if s = 0 then 0 else 1 + (Nat.digits 10 (s / 10)).length := by
  split
  · next h => subst h; simp
  · next h =>
    rw [Nat.digits_def' (by norm_num) (Nat.pos_of_ne_zero h)]
    simp; omega

theorem float_extract_loop_count (d : Nat) :
    ∀ (fuel i s : Nat) (ds : List Nat) (c : Nat), i + fuel = 6 → 0 < fuel → c = i →
      (float_extract_loop d fuel i s ds c).2
        = min 6 (max (max (d + 1) (i + 1)) (i + (Nat.digits 10 s).length)) := by
  intro fuel
  induction fuel with
  | zero => intro i s ds c _ h; omega
  | succ f ih =>
    intro i s ds c hf _ hc
    subst hc
    have hi : c < 6 := by omega
    have hL := digits_length_step s
    have hL2 := digits_length_step (s / 10)
    rw [float_extract_loop, if_pos hi]
    simp only []
    by_cases hb : s / 10 = 0 ∧ c ≥ d
    · rw [if_pos hb]
      simp only []
      rw [if_pos hb.1] at hL2
      split at hL <;> omega
    · rw [if_neg hb]
      cases f with
      | zero =>
        simp only [float_extract_loop]
        omega
      | succ g =>
        rw [ih (c + 1) (s / 10) _ (c + 1) (by omega) (by omega) rfl]
        by_cases h0 : s / 10 = 0
        · have hcd : c < d := by
            by_contra hh; exact hb ⟨h0, by omega⟩
          rw [if_pos h0] at hL2
          split at hL <;> omega
        · have hs : s ≠ 0 := by
            intro hs; apply h0; rw [hs]
          rw [if_neg hs] at hL
          rw [if_neg h0] at hL2
          omega

theorem float_digit_count_formula (s d : Nat) :
    float_digit_count s d = min 6 (max (d + 1) (Nat.digits 10 s).length) := by
  unfold float_digit_count
  rw [float_extract_loop_count d 6 0 s _ 0 (by omega) (by omega) rfl]
  omega

theorem float_extract_loop_digits_le (d : Nat) :
    ∀ (fuel i s : Nat) (ds : List Nat) (c : Nat), (∀ x ∈ ds, x ≤ 9) →
      ∀ x ∈ (float_extract_loop d fuel i s ds c).1, x ≤ 9 := by
  intro fuel
  induction fuel with
  | zero => intro i s ds c h; exact h
  | succ f ih =>
    intro i s ds c h
    have hset : ∀ x ∈ ds.set i (s % 10), x ≤ 9 := by
      intro x hx
      rcases List.mem_or_eq_of_mem_set hx with h1 | h1
      · exact h x h1
      · omega
    rw [float_extract_loop]
    split
    · simp only []
      split
      · exact hset
      · exact ih _ _ _ _ hset
    · exact h

theorem getD_le_nine (ds : List Nat) (h : ∀ x ∈ ds, x ≤ 9) (i : Nat) : ds.getD i 0 ≤ 9 := by
  rw [List.getD_eq_getElem?_getD]
  cases hi : ds[i]? with
  | none => simp
  | some x =>
    have := List.getElem?_mem hi
    simpa using h x this


theorem display_float_unfold (neg : Bool) (s d : Nat) (hd : d ≤ 3) :
    ht1621_display_float neg s d
      = (if neg = true ∧ 0 < HT1621_MAX_DIGITS then
            (([(0, HT1621_MINUS, false)], 0 + 1) : List DigitCall × Nat) else ([], 0)).1
        ++ (render_loop
              (float_extract_loop d 6 0 s (List.replicate HT1621_MAX_DIGITS 0) 0).1
              (fun i => decide ((i : Int) = (d : Int) - 1 ∧ d > 0))
              (float_digit_count s d)
              (if neg = true ∧ 0 < HT1621_MAX_DIGITS then
                (([(0, HT1621_MINUS, false)], 0 + 1) : List DigitCall × Nat) else ([], 0)).2).1
        ++ fill_loop HT1621_BLANK HT1621_MAX_DIGITS
            (render_loop
              (float_extract_loop d 6 0 s (List.replicate HT1621_MAX_DIGITS 0) 0).1
              (fun i => decide ((i : Int) = (d : Int) - 1 ∧ d > 0))
              (float_digit_count s d)
              (if neg = true ∧ 0 < HT1621_MAX_DIGITS then
                (([(0, HT1621_MINUS, false)], 0 + 1) : List DigitCall × Nat) else ([], 0)).2).2 := by
  unfold ht1621_display_float float_digit_count
  have h : ¬ d > 3 := by omega
  simp only [if_neg h]

theorem float_body_pointCount (digits : List Nat) (k d : Nat) (neg : Bool)
    (hk : k ≤ 6) (hd : d ≤ 3) (hdk : d + 1 ≤ k) :
    pointCount
        ((if neg = true ∧ 0 < HT1621_MAX_DIGITS then
            (([(0, HT1621_MINUS, false)], 0 + 1) : List DigitCall × Nat) else ([], 0)).1
          ++ (render_loop digits (fun i => decide ((i : Int) = (d : Int) - 1 ∧ d > 0)) k
              (if neg = true ∧ 0 < HT1621_MAX_DIGITS then
                (([(0, HT1621_MINUS, false)], 0 + 1) : List DigitCall × Nat) else ([], 0)).2).1
          ++ fill_loop HT1621_BLANK HT1621_MAX_DIGITS
              (render_loop digits (fun i => decide ((i : Int) = (d : Int) - 1 ∧ d > 0)) k
                (if neg = true ∧ 0 < HT1621_MAX_DIGITS then
                  (([(0, HT1621_MINUS, false)], 0 + 1) : List DigitCall × Nat) else ([], 0)).2).2)
      = if d = 0 ∨ (neg = true ∧ k = 6 ∧ d = 1) then 0 else 1 := by
  interval_cases k <;> interval_cases d <;> first | omega | (cases neg <;> rfl)


theorem float_body_digits (digits : List Nat) (k d : Nat) (hk : k ≤ 6) :
    renderedDigits
        ((if false = true ∧ 0 < HT1621_MAX_DIGITS then
            (([(0, HT1621_MINUS, false)], 0 + 1) : List DigitCall × Nat) else ([], 0)).1
          ++ (render_loop digits (fun i => decide ((i : Int) = (d : Int) - 1 ∧ d > 0)) k
              (if false = true ∧ 0 < HT1621_MAX_DIGITS then
                (([(0, HT1621_MINUS, false)], 0 + 1) : List DigitCall × Nat) else ([], 0)).2).1
          ++ fill_loop HT1621_BLANK HT1621_MAX_DIGITS
              (render_loop digits (fun i => decide ((i : Int) = (d : Int) - 1 ∧ d > 0)) k
                (if false = true ∧ 0 < HT1621_MAX_DIGITS then
                  (([(0, HT1621_MINUS, false)], 0 + 1) : List DigitCall × Nat) else ([], 0)).2).2)
      = (List.range k).map (fun j => digits.getD (k - 1 - j) 0)
          ++ List.replicate (6 - k) HT1621_BLANK := by
  interval_cases k <;> rfl

theorem float_body_calls (digits : List Nat) (hdig : ∀ i, digits.getD i 0 ≤ 9)
    (k d : Nat) (neg : Bool) (hk : k ≤ 6) :
    ∀ c ∈
        ((if neg = true ∧ 0 < HT1621_MAX_DIGITS then
            (([(0, HT1621_MINUS, false)], 0 + 1) : List DigitCall × Nat) else ([], 0)).1
          ++ (render_loop digits (fun i => decide ((i : Int) = (d : Int) - 1 ∧ d > 0)) k
              (if neg = true ∧ 0 < HT1621_MAX_DIGITS then
                (([(0, HT1621_MINUS, false)], 0 + 1) : List DigitCall × Nat) else ([], 0)).2).1
          ++ fill_loop HT1621_BLANK HT1621_MAX_DIGITS
              (render_loop digits (fun i => decide ((i : Int) = (d : Int) - 1 ∧ d > 0)) k
                (if neg = true ∧ 0 < HT1621_MAX_DIGITS then
                  (([(0, HT1621_MINUS, false)], 0 + 1) : List DigitCall × Nat) else ([], 0)).2).2),
      c.1 < 6
        ∧ ((c.2.1 = HT1621_MINUS ∧ c.2.2 = false) ∨ (c.2.1 = HT1621_BLANK ∧ c.2.2 = false)
            ∨ c.2.1 ≤ 9) := by
  intro c hc
  interval_cases k <;> cases neg <;>
    simp only [render_loop, fill_loop, HT1621_MAX_DIGITS, Bool.false_eq_true, false_and,
      true_and, if_false, if_true, List.nil_append, List.cons_append, List.mem_cons,
      List.mem_singleton, List.not_mem_nil, or_false, Nat.lt_irrefl,
      Nat.reduceLT, Nat.reduceAdd, List.append_nil] at hc <;>
    rcases hc with rfl | rfl | rfl | rfl | rfl | rfl <;>
    first
      | exact ⟨by simp, Or.inr (Or.inr (hdig _))⟩
      | exact ⟨by simp, Or.inl ⟨rfl, rfl⟩⟩
      | exact ⟨by simp, Or.inr (Or.inl ⟨rfl, rfl⟩)⟩

theorem display_digit_pointBit_aux :
    ∀ p < 6, ∀ d ∈ [0,1,2,3,4,5,6,7,8,9,10,11,12,13,14,15,255,254], ∀ dp : Bool,
      pointBitCount (ht1621_display_digit p d dp) = if dp = true then 1 else 0 := by
  decide

theorem pointBitCount_eq_pointCount (calls : List DigitCall)
    (h : ∀ c ∈ calls, c.1 < 6
      ∧ ((c.2.1 = HT1621_MINUS ∧ c.2.2 = false) ∨ (c.2.1 = HT1621_BLANK ∧ c.2.2 = false)
          ∨ c.2.1 ≤ 9)) :
    pointBitCount (digitCallsWrites calls) = pointCount calls := by
  induction calls with
  | nil => rfl
  | cons c cs ih =>
    have hc := h c (List.mem_cons_self _ _)
    have ih2 := ih (fun x hx => h x (List.mem_cons_of_mem _ hx))
    have hdoc : c.2.1 ∈ [0,1,2,3,4,5,6,7,8,9,10,11,12,13,14,15,255,254] := by
      apply documented_digit_mem
      rcases hc.2 with h1 | h1 | h1
      · exact Or.inr (Or.inr h1.1)
      · exact Or.inr (Or.inl h1.1)
      · exact Or.inl (by omega)
    have h1 := display_digit_pointBit_aux c.1 hc.1 c.2.1 hdoc c.2.2
    simp only [pointBitCount, pointCount, digitCallsWrites, List.flatMap_cons,
      List.countP_append, List.countP_cons] at h1 ih2 ⊢
    rw [h1, ih2]
    cases c.2.2
    · simp
    · simp; omega


theorem float_digits_le_nine (s d : Nat) (i : Nat) :
    (float_extract_loop d 6 0 s (List.replicate HT1621_MAX_DIGITS 0) 0).1.getD i 0 ≤ 9 := by
  apply getD_le_nine
  apply float_extract_loop_digits_le
  intro x hx
  have := List.eq_of_mem_replicate hx
  omega

/-- C21, as stated, fails: for s = 5 (value 0.005) and decimals = 2 the
extraction does not stop after two digits. -/
theorem float_digit_count_not_two : ¬ (float_digit_count 5 2 = 2) := by
  decide

/-- C21, amended: for every scaled magnitude s and decimals d in 0..3, the
number of digits extracted by `ht1621_display_float` is the smallest k with
1 <= k <= 6 such that k = 6 or (s div 10^k = 0 and k >= d + 1), that is
min(6, max(d + 1, number of decimal digits of s)); for non-negative values
these k digits are rendered first and BLANK fills the remaining 6 - k
positions.  For s = 5 and d = 2 exactly three digits are extracted. -/
theorem float_digit_count_smallest (s d : Nat) (hs : s ≤ 2147483647) (hd : d ≤ 3) :
    float_digit_count s d = min 6 (max (d + 1) (Nat.digits 10 s).length)
      ∧ (1 ≤ float_digit_count s d ∧ float_digit_count s d ≤ 6)
      ∧ (float_digit_count s d = 6
          ∨ (s / 10 ^ float_digit_count s d = 0 ∧ d + 1 ≤ float_digit_count s d))
      ∧ (∀ j, 1 ≤ j → j < float_digit_count s d →
          ¬ (j = 6 ∨ (s / 10 ^ j = 0 ∧ d + 1 ≤ j)))
      ∧ (renderedDigits (ht1621_display_float false s d)).drop (float_digit_count s d)
          = List.replicate (6 - float_digit_count s d) HT1621_BLANK
      ∧ (∀ x ∈ (renderedDigits (ht1621_display_float false s d)).take (float_digit_count s d),
          x ≤ 9)
      ∧ float_digit_count 5 2 = 3 := by
  have _ := hs
  have hf := float_digit_count_formula s d
  have hdiv : ∀ j, s / 10 ^ j = 0 ↔ (Nat.digits 10 s).length ≤ j := by
    intro j
    rw [digits_length_le_iff, Nat.div_eq_zero_iff (by positivity)]
  have hk6 : float_digit_count s d ≤ 6 := by omega
  have hren : renderedDigits (ht1621_display_float false s d)
      = (List.range (float_digit_count s d)).map
          (fun j => (float_extract_loop d 6 0 s (List.replicate HT1621_MAX_DIGITS 0) 0).1.getD
            (float_digit_count s d - 1 - j) 0)
        ++ List.replicate (6 - float_digit_count s d) HT1621_BLANK := by
    rw [display_float_unfold false s d hd]
    exact float_body_digits _ _ d hk6
  refine ⟨hf, ⟨by omega, hk6⟩, ?_, ?_, ?_, ?_, by decide⟩
  · by_cases h6 : float_digit_count s d = 6
    · exact Or.inl h6
    · right
      rw [hdiv]
      omega
  · intro j hj1 hj2 hP
    rcases hP with h | ⟨h1, h2⟩
    · omega
    · rw [hdiv] at h1
      omega
  · rw [hren, List.drop_append_of_le_length (by simp)]
    simp
  · intro x hx
    rw [hren, List.take_append_of_le_length (by simp)] at hx
    have hx2 := List.mem_of_mem_take hx
    simp only [List.mem_map] at hx2
    obtain ⟨j, _, rfl⟩ := hx2
    exact float_digits_le_nine s d _

/-- C22, as stated, fails: for the negative value with s = 123456 and
decimals = 1, it is not the case that exactly one rendered position has the
decimal-point bit set. -/
theorem display_float_point_dropped :
    ¬ (pointBitCount (digitCallsWrites (ht1621_display_float true 123456 1)) = 1) := by
  decide

/-- C22, amended: for every scaled magnitude s in 0..999999, either sign and
decimals in 0..3, no rendered position has the decimal point when decimals =
0; when decimals is in 1..3 exactly one position has it, except for a
negative value with s >= 100000 and decimals = 1, where the minus sign leaves
no position for the digit that carries the point and no position has it.  The
count is the same on the written high nibbles (bit 3), and a position with the
decimal point always holds a numeric digit 0..9. -/
theorem display_float_point_count (neg : Bool) (s d : Nat) (hs : s ≤ 999999) (hd : d ≤ 3) :
    pointCount (ht1621_display_float neg s d)
        = (if d = 0 ∨ (neg = true ∧ 100000 ≤ s ∧ d = 1) then 0 else 1)
      ∧ pointBitCount (digitCallsWrites (ht1621_display_float neg s d))
          = pointCount (ht1621_display_float neg s d)
      ∧ (∀ c ∈ ht1621_display_float neg s d, c.2.2 = true → c.2.1 ≤ 9) := by
  have _ := hs
  have hf := float_digit_count_formula s d
  have hk6 : float_digit_count s d ≤ 6 := by omega
  have h5 : (Nat.digits 10 s).length ≤ 5 ↔ s < 100000 := by
    have := digits_length_le_iff s 5
    simpa using this
  have hcalls := float_body_calls _ (float_digits_le_nine s d) (float_digit_count s d) d neg hk6
  rw [← display_float_unfold neg s d hd] at hcalls
  refine ⟨?_, pointBitCount_eq_pointCount _ hcalls, ?_⟩
  · rw [display_float_unfold neg s d hd,
      float_body_pointCount _ _ d neg hk6 hd (by omega)]
    have hiff : float_digit_count s d = 6 ↔ 100000 ≤ s := by
      constructor
      · intro h
        by_contra hc
        have := h5.2 (by omega)
        omega
      · intro h
        have : ¬ (Nat.digits 10 s).length ≤ 5 := fun hh => by have := h5.1 hh; omega
        omega
    simp only [hiff]
  · intro c hc hdp
    rcases (hcalls c hc).2 with h | h | h
    · rw [h.2] at hdp; exact absurd hdp (by decide)
    · rw [h.2] at hdp; exact absurd hdp (by decide)
    · exact h


theorem framedRun_rejects :
    framedRun (1, 1) [Event.set Pin.WR 0] = none
      ∧ framedRun (1, 1) [Event.set Pin.DATA 1] = none
      ∧ framedRun (1, 1) [Event.set Pin.CS 0, Event.set Pin.CS 0] = none
      ∧ framedRun (1, 1) [Event.set Pin.CS 0, Event.set Pin.WR 0, Event.set Pin.CS 1] = none := by
  decide

/-- Witness of `float_digit_count_smallest` at s = 5, decimals = 2. -/
theorem float_digit_count_smallest_witness :
    (5 ≤ 2147483647 ∧ 2 ≤ 3)
      ∧ float_digit_count 5 2 = min 6 (max (2 + 1) (Nat.digits 10 5).length) :=
  ⟨⟨by decide, by decide⟩, (float_digit_count_smallest 5 2 (by decide) (by decide)).1⟩

/-- Witness of `display_float_point_count` at display_float(-98.765, 1). -/
theorem display_float_point_count_witness :
    (98765 ≤ 999999 ∧ 1 ≤ 3)
      ∧ pointCount (ht1621_display_float true 98765 1)
        = (if 1 = 0 ∨ (true = true ∧ 100000 ≤ 98765 ∧ 1 = 1) then 0 else 1) :=
  ⟨⟨by decide, by decide⟩, (display_float_point_count true 98765 1 (by decide) (by decide)).1⟩

/-- Witness of `display_float_clamps_decimals` at decimals = 7. -/
theorem display_float_clamps_decimals_witness :
    (3141 ≤ 2147483647 ∧ 4 ≤ 7 ∧ 7 ≤ 255)
      ∧ ht1621_display_float false 3141 7 = ht1621_display_float false 3141 3 :=
  ⟨⟨by decide, by decide, by decide⟩,
    (display_float_clamps_decimals false 3141 7 (by decide) (by decide) (by decide)).1⟩

/-- Witness of `display_number_minus_costs_digit` at n = -123456. -/
theorem display_number_minus_costs_digit_witness :
    ((-2147483647 : Int) ≤ -123456 ∧ (-123456 : Int) ≤ -100000)
      ∧ ht1621_display_number (-123456) true
        = atPositions (HT1621_MINUS :: (sixDigits (Int.natAbs (-123456))).take 5) :=
  ⟨⟨by decide, by decide⟩,
    (display_number_minus_costs_digit (-123456) true (by decide) (by decide)).1⟩

end HT1621
